import Mathlib

/-!
Verification development for two collectd plugin cores:
  * src/statsd.c            — StatsD ingestion and aggregation
  * src/write_influxdb_udp.c — line-protocol UDP shipper

The C sources are shallowly embedded: machine doubles are modelled as exact
rationals (ℚ), `size_t` arithmetic is modelled as ℕ with explicit reduction
modulo 2^64 where the C code can wrap, byte buffers are lists, and the
stateful plugin entry points become pure state-passing functions.  Wall-clock
times (`cdtime_t`) are modelled as ℕ.
-/

namespace Collectd

/-- C `nearbyint` in the default rounding mode: round to the nearest integer,
ties to even.  Used by the statsd counter flush path. -/
def nearbyint (q : ℚ) : ℤ :=
  let f : ℤ := ⌊q⌋
  let r : ℚ := q - f
  if r < 1 / 2 then f
  else if 1 / 2 < r then f + 1
  else if f % 2 = 0 then f else f + 1

/-- `size_t` subtraction `a - b` as computed by the C abstract machine
(64-bit unsigned wrap-around), for operands below `2 ^ 64`. -/
def sizeSub (a b : ℕ) : ℕ := (2 ^ 64 + a - b) % 2 ^ 64

/-! ## write_influxdb_udp.c — datagram batcher and endpoint lifecycle -/

/-- The process-wide send buffer of `write_influxdb_udp.c`.  The C code keeps
`send_buffer` (byte array), `send_buffer_ptr`, `send_buffer_fill` and
`send_buffer_last_update`; since `send_buffer_ptr` always points `fill` bytes
into the buffer we represent the used region as the list `bytes`
(`send_buffer_fill = bytes.length`). -/
structure SendBuffer where
  bytes : List ℕ
  last_update : ℕ
deriving DecidableEq, Repr

/-- `send_buffer_fill`, the number of bytes used in the send buffer. -/
def send_buffer_fill (s : SendBuffer) : ℕ := s.bytes.length

/-- `write_influxdb_udp_init_buffer`: zero the buffer, reset the pointer and
fill, clear `send_buffer_last_update`. -/
def write_influxdb_udp_init_buffer : SendBuffer :=
  { bytes := [], last_update := 0 }

/-- `flush_buffer`: send the current buffer contents (one datagram, delivered
to every configured endpoint) and reinitialize the buffer.  The emitted
datagram payload is returned alongside the new buffer state. -/
def flush_buffer (s : SendBuffer) : SendBuffer × List (List ℕ) :=
  (write_influxdb_udp_init_buffer, [s.bytes])

/-- `write_influxdb_udp_write`, restricted to the batching step.  `point` is
the line rendered by `format_influxdb_value_list` (the C code renders into a
1452-byte scratch buffer, so `point.length < 1452` regardless of the
configured packet size); a zero-length render means "no real values" and the
write returns without touching the buffer.  The two flush conditions use
`size_t` arithmetic exactly as the C expression
`wifxudp_config_packet_size - send_buffer_fill < status` does. -/
def write_influxdb_udp_write (packet_size now : ℕ) (point : List ℕ)
    (s : SendBuffer) : SendBuffer × List (List ℕ) :=
  if point.length = 0 then (s, [])
  else
    let fb1 := if sizeSub packet_size (send_buffer_fill s) < point.length then
      flush_buffer s else (s, [])
    let s2 : SendBuffer := { bytes := fb1.1.bytes ++ point, last_update := now }
    let fb2 := if sizeSub packet_size (send_buffer_fill s2) < 120 then
      flush_buffer s2 else (s2, [])
    (fb2.1, fb1.2 ++ fb2.2)

/-- Run a sequence of writes `(now, point)` through the batcher, collecting
all emitted datagrams in order. -/
def write_influxdb_udp_run (packet_size : ℕ) :
    List (ℕ × List ℕ) → SendBuffer → SendBuffer × List (List ℕ)
  | [], s => (s, [])
  | w :: ws, s =>
      let r1 := write_influxdb_udp_write packet_size w.1 w.2 s
      let r2 := write_influxdb_udp_run packet_size ws r1.1
      (r2.1, r1.2 ++ r2.2)

/-- `write_influxdb_udp_flush` (the registered flush callback): if the buffer
is non-empty and either no `timeout` is given or
`send_buffer_last_update + timeout ≤ now`, flush; otherwise leave the buffer
untouched.  Always returns 0. -/
def write_influxdb_udp_flush (timeout now : ℕ) (s : SendBuffer) :
    SendBuffer × List (List ℕ) × ℤ :=
  if 0 < send_buffer_fill s then
    if 0 < timeout ∧ now < s.last_update + timeout then (s, [], 0)
    else ((flush_buffer s).1, (flush_buffer s).2, 0)
  else (s, [], 0)

/-- One `addrinfo` entry returned by `getaddrinfo`, abstracted: whether
`socket(2)` succeeds for it, and the socket address it resolves to. -/
structure AddrCand where
  sock_ok : Bool
  addr : ℕ
  addrlen : ℕ
deriving DecidableEq, Repr

/-- Environment for a connect attempt: the `getaddrinfo` outcome (`none` =
resolution failure) and the file descriptor a successful `socket(2)` call
returns. -/
structure ConnectEnv where
  resolve : Option (List AddrCand)
  newfd : ℕ
deriving DecidableEq, Repr

/-- `struct sockent_client`: cached fd (`none` = -1, disconnected), cached
resolved address, DNS re-resolution interval and deadline. -/
structure SockentClient where
  fd : Option ℕ
  addr : Option ℕ
  addrlen : ℕ
  next_resolve_reconnect : ℕ
  resolve_interval : ℕ
deriving DecidableEq, Repr

/-- `sockent_client_disconnect`: close the fd, free the cached address. -/
def sockent_client_disconnect (c : SockentClient) : SockentClient :=
  { c with fd := none, addr := none, addrlen := 0 }

/-- The address-iteration loop inside `sockent_client_connect`: walk the
`addrinfo` list, disconnecting a still-open fd at the top of each iteration,
and stop at the first address whose `socket(2)` call succeeds. -/
def sockent_connect_loop (newfd : ℕ) :
    List AddrCand → SockentClient → SockentClient
  | [], c => c
  | ai :: rest, c =>
      let c1 := if c.fd.isSome then sockent_client_disconnect c else c
      if ai.sock_ok then
        { c1 with fd := some newfd, addr := some ai.addr, addrlen := ai.addrlen }
      else
        sockent_connect_loop newfd rest { c1 with fd := none }

/-- `sockent_client_connect`: no-op when already connected and not stale;
stale means `resolve_interval != 0 && next_resolve_reconnect < now`.
Otherwise resolve and walk the address list; on success record the next
resolve deadline when an interval is configured.  Returns the new client
state and whether the connect succeeded (C return code 0). -/
def sockent_client_connect (env : ConnectEnv) (now : ℕ) (c : SockentClient) :
    SockentClient × Bool :=
  let reconnect : Prop := c.resolve_interval ≠ 0 ∧ c.next_resolve_reconnect < now
  if c.fd.isSome ∧ ¬ reconnect then (c, true)
  else
    match env.resolve with
    | none => (c, false)
    | some ais =>
        let c1 := sockent_connect_loop env.newfd ais c
        if c1.fd.isNone then (c1, false)
        else if 0 < c1.resolve_interval then
          ({ c1 with next_resolve_reconnect := now + c1.resolve_interval }, true)
        else (c1, true)

/-- Outcome of one `sendto(2)` attempt. -/
inductive SendResult
  | ok
  | eintr
  | eagain
  | err
deriving DecidableEq, Repr

/-- `write_influxdb_udp_send_buffer`: loop forever; ensure the endpoint is
connected (give up silently if connecting fails), then `sendto`.  `EINTR` and
`EAGAIN` restart the loop; any other error disconnects the endpoint and
abandons the send; success breaks out.  The list of `SendResult`s supplies
the outcome of each successive `sendto` attempt (the C loop never exits on
its own, so consuming the whole list models an unbounded retry run).  The
function is `void` in C: it returns only the endpoint state, never an
error. -/
def write_influxdb_udp_send_buffer (env : ConnectEnv) (now : ℕ) :
    List SendResult → SockentClient → SockentClient
  | [], c => c
  | r :: rest, c =>
      let cc := sockent_client_connect env now c
      if cc.2 = false then cc.1
      else
        match r with
        | .ok => cc.1
        | .eintr => write_influxdb_udp_send_buffer env now rest cc.1
        | .eagain => write_influxdb_udp_send_buffer env now rest cc.1
        | .err => sockent_client_disconnect cc.1

/-! ## statsd.c — data model and line parser -/

/-- `enum metric_type_e`. -/
inductive MetricType
  | STATSD_COUNTER
  | STATSD_TIMER
  | STATSD_GAUGE
  | STATSD_SET
deriving DecidableEq, Repr

/-- `struct statsd_metric_s`.  `value` is the double-typed field (gauge value
or counter residual, as exact ℚ), `counter` the monotonic `derive_t` total.
The latency histogram and the member set are lazily created in C; an absent
histogram or set behaves exactly like an empty one for every operation the
plugin performs, so both are modelled by (possibly empty) lists.  The
histogram itself lives in collectd's latency library, outside this
repository's sources; it is modelled from the spec as the list of recorded
samples (see `latency_counter_get_num` and friends). -/
structure StatsdMetric where
  type : MetricType
  value : ℚ
  counter : ℤ
  latency : List ℚ
  set : List (List Char)
  updates_num : ℕ
deriving DecidableEq, Repr

/-- The statsd plugin's configuration switches (all default to false / empty,
as the corresponding `conf_*` statics do). -/
structure StatsdConf where
  delete_counters : Bool := false
  delete_timers : Bool := false
  delete_gauges : Bool := false
  delete_sets : Bool := false
  counter_sum : Bool := false
  counter_gauge : Bool := false
  timer_lower : Bool := false
  timer_upper : Bool := false
  timer_sum : Bool := false
  timer_count : Bool := false
  timer_percentile : List ℚ := []
deriving DecidableEq, Repr

/-- The all-defaults configuration. -/
def statsd_conf_default : StatsdConf := {}

/-- `statsd_metric_set` (cell-level): overwrite the value, count the
update. -/
def statsd_metric_set (v : ℚ) (m : StatsdMetric) : StatsdMetric :=
  { m with value := v, updates_num := m.updates_num + 1 }

/-- `statsd_metric_add` (cell-level): add a delta to the value, count the
update. -/
def statsd_metric_add (d : ℚ) (m : StatsdMetric) : StatsdMetric :=
  { m with value := m.value + d, updates_num := m.updates_num + 1 }

/-- A parsed C double: finite (exact rational), infinite, or NaN.  `strtod`
can produce all three. -/
inductive FloatV
  | fin (q : ℚ)
  | inf
  | nan
deriving DecidableEq, Repr

/-- Division of a parsed double by a (finite, positive) scale, as the C
expression `value.gauge / scale.gauge`. -/
def FloatV.divQ : FloatV → ℚ → FloatV
  | .fin a, q => .fin (a / q)
  | .inf, _ => .inf
  | .nan, _ => .nan

/-- Numeric value of a digit character. -/
def digitVal (c : Char) : ℕ := c.toNat - 48

/-- Value of a digit string read most-significant first. -/
def digitsToNat (l : List Char) : ℕ := l.foldl (fun a c => 10 * a + digitVal c) 0

/-- The decimal-significand part of `strtod`: digits, optionally containing
one decimal point (with digits required on at least one side).  Returns the
value and the unconsumed remainder. -/
def strtodSignificand (l : List Char) : Option (ℚ × List Char) :=
  let d1 := l.takeWhile Char.isDigit
  let r1 := l.dropWhile Char.isDigit
  match r1 with
  | '.' :: r2 =>
      let d2 := r2.takeWhile Char.isDigit
      let r3 := r2.dropWhile Char.isDigit
      if d1.isEmpty ∧ d2.isEmpty then none
      else some ((digitsToNat d1 : ℚ) + (digitsToNat d2 : ℚ) / (10 : ℚ) ^ d2.length, r3)
  | _ => if d1.isEmpty then none else some ((digitsToNat d1 : ℚ), r1)

/-- The optional exponent part of `strtod` (`e`/`E`, optional sign, digits);
consumed only when well-formed, otherwise left in place. -/
def strtodExponent (l : List Char) : ℤ × List Char :=
  let core : Bool → List Char → Option (ℤ × List Char) := fun sign r =>
    let d := r.takeWhile Char.isDigit
    let r2 := r.dropWhile Char.isDigit
    if d.isEmpty then none
    else some ((if sign then -(digitsToNat d : ℤ) else (digitsToNat d : ℤ)), r2)
  match l with
  | 'e' :: rest =>
      (match rest with
       | '+' :: r => core false r
       | '-' :: r => core true r
       | r => core false r).getD (0, l)
  | 'E' :: rest =>
      (match rest with
       | '+' :: r => core false r
       | '-' :: r => core true r
       | r => core false r).getD (0, l)
  | _ => (0, l)

/-- Lower-case a character list (for `strtod`'s case-insensitive `inf` /
`nan` forms). -/
def toLowerList (l : List Char) : List Char := l.map Char.toLower

/-- Model of C `strtod`: skip leading whitespace, optional sign, then either
`inf`/`infinity`, `nan`, or a decimal significand with optional exponent.
Returns the parsed value and the first unconsumed character onward, or `none`
when no conversion could be performed. -/
def strtodModel (l0 : List Char) : Option (FloatV × List Char) :=
  let l1 := l0.dropWhile (fun c => c = ' ' ∨ c = '\t' ∨ c = '\n' ∨ c = '\r')
  let sl : Bool × List Char :=
    match l1 with
    | '+' :: r => (false, r)
    | '-' :: r => (true, r)
    | r => (false, r)
  let neg := sl.1
  let l2 := sl.2
  if toLowerList (l2.take 3) = ['i', 'n', 'f'] then
    if toLowerList (l2.take 8) = ['i', 'n', 'f', 'i', 'n', 'i', 't', 'y'] then
      some (.inf, l2.drop 8)
    else some (.inf, l2.drop 3)
  else if toLowerList (l2.take 3) = ['n', 'a', 'n'] then some (.nan, l2.drop 3)
  else
    match strtodSignificand l2 with
    | none => none
    | some (q, r) =>
        let er := strtodExponent r
        some (.fin ((if neg then -q else q) * (10 : ℚ) ^ er.1), er.2)

/-- `statsd_parse_value`: `strtod` must consume at least one character and
the entire string must be consumed (`*endptr == 0`). -/
def statsd_parse_value (l : List Char) : Option FloatV :=
  match strtodModel l with
  | some (v, []) => some v
  | _ => none

/-- C `strchr` as a splitter: `strchrSplit c l = some (a, b)` when
`l = a ++ c :: b` with `c ∉ a` (split at the first occurrence of `c`). -/
def strchrSplit (c : Char) : List Char → Option (List Char × List Char)
  | [] => none
  | x :: xs =>
      if x = c then some ([], xs)
      else (strchrSplit c xs).map (fun p => (x :: p.1, p.2))

/-- C `strrchr` as a splitter: split at the last occurrence of `c`. -/
def strrchrSplit (c : Char) (l : List Char) : Option (List Char × List Char) :=
  match strchrSplit c l.reverse with
  | none => none
  | some (a, b) => some (b.reverse, a.reverse)

/-- The table update a successfully parsed statsd line requests.  Values are
carried as parsed doubles (`FloatV`); the counter/timer contribution is
already divided by the sample rate, as in `statsd_handle_counter` /
`statsd_handle_timer`. -/
inductive StatsdAction
  | counterAdd (name : List Char) (contrib : FloatV)
  | timerAdd (name : List Char) (ms : FloatV)
  | gaugeSet (name : List Char) (v : FloatV)
  | gaugeAdd (name : List Char) (v : FloatV)
  | setInsert (name : List Char) (member : List Char)
deriving DecidableEq, Repr

/-- `statsd_handle_counter`: optional `@rate` suffix, rate must be a finite
double in (0, 1]; the parsed value is scaled by `1/rate`. -/
def statsd_handle_counter (name value_str : List Char)
    (extra : Option (List Char)) : Option StatsdAction :=
  match extra with
  | some e =>
      if e.head? ≠ some '@' then none
      else
        match statsd_parse_value e.tail with
        | some (.fin r) =>
            if ¬ (0 < r ∧ r ≤ 1) then none
            else
              match statsd_parse_value value_str with
              | some v => some (.counterAdd name (v.divQ r))
              | none => none
        | some _ => none
        | none => none
  | none =>
      match statsd_parse_value value_str with
      | some v => some (.counterAdd name (v.divQ 1))
      | none => none

/-- `statsd_handle_timer`: same sample-rate handling as counters; the sample
is recorded in milliseconds scaled by `1/rate` (the `MS_TO_CDTIME_T`
conversion is a fixed bijective rescaling and is left out of the model). -/
def statsd_handle_timer (name value_str : List Char)
    (extra : Option (List Char)) : Option StatsdAction :=
  match extra with
  | some e =>
      if e.head? ≠ some '@' then none
      else
        match statsd_parse_value e.tail with
        | some (.fin r) =>
            if ¬ (0 < r ∧ r ≤ 1) then none
            else
              match statsd_parse_value value_str with
              | some v => some (.timerAdd name (v.divQ r))
              | none => none
        | some _ => none
        | none => none
  | none =>
      match statsd_parse_value value_str with
      | some v => some (.timerAdd name (v.divQ 1))
      | none => none

/-- `statsd_handle_gauge`: a value string starting with `+` or `-` is a
delta, anything else overwrites. -/
def statsd_handle_gauge (name value_str : List Char) : Option StatsdAction :=
  match statsd_parse_value value_str with
  | none => none
  | some v =>
      if value_str.head? = some '+' ∨ value_str.head? = some '-' then
        some (.gaugeAdd name v)
      else some (.gaugeSet name v)

/-- `statsd_handle_set`: insert the raw value string into the member set. -/
def statsd_handle_set (name value_str : List Char) : Option StatsdAction :=
  some (.setInsert name value_str)

/-- `statsd_parse_line`: split at the first `|` (kind separator), then at the
last `:` before it (name/value separator), then at the next `|` (sample-rate
separator); dispatch on the kind.  The `@rate` suffix is only examined for
`c` and `ms`; its mere presence makes `g` and `s` lines fail. -/
def statsd_parse_line (buffer : List Char) : Option StatsdAction :=
  match strchrSplit '|' buffer with
  | none => none
  | some (name_value, after_bar) =>
      match strrchrSplit ':' name_value with
      | none => none
      | some (name, value) =>
          let te : List Char × Option (List Char) :=
            match strchrSplit '|' after_bar with
            | none => (after_bar, none)
            | some (t, e) => (t, some e)
          if te.1 = ['c'] then statsd_handle_counter name value te.2
          else if te.1 = ['m', 's'] then statsd_handle_timer name value te.2
          else if te.2.isSome then none
          else if te.1 = ['g'] then statsd_handle_gauge name value
          else if te.1 = ['s'] then statsd_handle_set name value
          else none

/-- Apply a parsed update to its cell, as the `statsd_handle_*` functions do
through `statsd_metric_{set,add}` / direct mutation.  A non-finite double
stored into a cell leaves the rational model (no claim concerns that case);
such updates are absorbed without effect here. -/
def statsd_apply_cell (a : StatsdAction) (m : StatsdMetric) : StatsdMetric :=
  match a with
  | .counterAdd _ (.fin q) => statsd_metric_add q m
  | .gaugeAdd _ (.fin q) => statsd_metric_add q m
  | .gaugeSet _ (.fin q) => statsd_metric_set q m
  | .timerAdd _ (.fin q) =>
      { m with latency := m.latency ++ [q], updates_num := m.updates_num + 1 }
  | .setInsert _ k =>
      { m with set := if k ∈ m.set then m.set else m.set ++ [k],
               updates_num := m.updates_num + 1 }
  | _ => m

/-! ## statsd.c — flush-time emission

The latency library (`utils/latency/latency.c`) is not part of this
repository extract.  Modelled from the spec: a `LatencyHistogram` library
providing `add/min/max/average/sum/count/percentile/reset` over recorded
samples; the histogram is the list of samples recorded since the last
reset. -/

/-- Modelled from the spec: `latency_counter_get_num`, the number of recorded
samples. -/
def latency_counter_get_num (h : List ℚ) : ℕ := h.length

/-- Modelled from the spec: `latency_counter_get_sum`. -/
def latency_counter_get_sum (h : List ℚ) : ℚ := h.sum

/-- Modelled from the spec: `latency_counter_get_average`. -/
def latency_counter_get_average (h : List ℚ) : ℚ := h.sum / h.length

/-- Modelled from the spec: `latency_counter_get_min`. -/
def latency_counter_get_min (h : List ℚ) : ℚ := h.foldr min (h.headI)

/-- Modelled from the spec: `latency_counter_get_max`. -/
def latency_counter_get_max (h : List ℚ) : ℚ := h.foldr max (h.headI)

/-- Modelled from the spec: `latency_counter_get_percentile`, a rank-based
percentile over the sorted samples. -/
def latency_counter_get_percentile (p : ℚ) (h : List ℚ) : ℚ :=
  let sorted := h.insertionSort (· ≤ ·)
  sorted.getD (⌈p / 100 * h.length⌉.toNat - 1) 0

/-- A value carried by a dispatched `value_list_t`: a finite gauge, a NaN
gauge, or a derive. -/
inductive EmValue
  | g (q : ℚ)
  | gnan
  | d (z : ℤ)
deriving DecidableEq, Repr

/-- One call to `plugin_dispatch_values`, keeping the fields the statsd
plugin sets: `vl.type`, `vl.type_instance`, the single value, and `vl.time`
(`none` when the plugin leaves it 0 for the dispatcher to fill in). -/
structure Emission where
  type : String
  type_instance : List Char
  value : EmValue
  time : Option ℕ
deriving DecidableEq, Repr

/-- The `%s-percentile-%.0f` type-instance suffix: `%.0f` rounds to the
nearest integer (ties to even) and prints it. -/
def percentileTag (p : ℚ) : List Char :=
  "-percentile-".toList ++ Nat.toDigits 10 (nearbyint p).toNat

/-- The C function `statsd_metric_submit_unsafe` (the suffix, which only
records the locking convention, is dropped here): emit one cell.
`flush_time` is the
`cdtime()` sampled once for all of a timer's emissions; `name` is the
external metric name (table key minus its two-byte kind prefix).  Returns
the dispatched emissions in dispatch order together with the mutated cell. -/
def statsd_metric_submit (conf : StatsdConf) (flush_time : ℕ)
    (name : List Char) (m : StatsdMetric) : List Emission × StatsdMetric :=
  if m.type = .STATSD_GAUGE then
    ([⟨"gauge", name, .g m.value, none⟩], m)
  else if m.type = .STATSD_TIMER then
    let have_events := 0 < m.updates_num
    let stat : ℚ → EmValue := fun v => if have_events then .g v else .gnan
    let ems :=
      [⟨"latency", name ++ "-average".toList,
        stat (latency_counter_get_average m.latency), some flush_time⟩]
      ++ (if conf.timer_lower then
            [⟨"latency", name ++ "-lower".toList,
              stat (latency_counter_get_min m.latency), some flush_time⟩]
          else [])
      ++ (if conf.timer_upper then
            [⟨"latency", name ++ "-upper".toList,
              stat (latency_counter_get_max m.latency), some flush_time⟩]
          else [])
      ++ (if conf.timer_sum then
            [⟨"latency", name ++ "-sum".toList,
              stat (latency_counter_get_sum m.latency), some flush_time⟩]
          else [])
      ++ (conf.timer_percentile.map fun p =>
            ⟨"latency", name ++ percentileTag p,
              stat (latency_counter_get_percentile p m.latency),
              some flush_time⟩)
      ++ (if conf.timer_count then
            [⟨"gauge", name ++ "-count".toList,
              .g (latency_counter_get_num m.latency), some flush_time⟩]
          else [])
    (ems, { m with latency := [] })
  else if m.type = .STATSD_SET then
    ([⟨"objects", name, .g (m.set.length), none⟩], m)
  else
    -- STATSD_COUNTER
    let delta : ℤ := nearbyint m.value
    let sum_ems := if conf.counter_sum then
      [⟨"count", name, .g delta, none⟩] else []
    -- The counter_gauge block dispatches the residual, momentarily zeroes
    -- metric->value, and then restores it from the dispatched value, so the
    -- zeroing has no effect after the block.
    let gauge_ems := if conf.counter_gauge then
      [⟨"gauge", name, .g m.value, none⟩] else []
    let value2 := m.value - delta
    let counter2 := m.counter + delta
    (sum_ems ++ gauge_ems ++ [⟨"derive", name, .d counter2, none⟩],
      { m with value := value2, counter := counter2 })

/-- The per-kind delete-on-idle configuration flag tested by
`statsd_read`. -/
def statsd_delete_flag (conf : StatsdConf) : MetricType → Bool
  | .STATSD_COUNTER => conf.delete_counters
  | .STATSD_TIMER => conf.delete_timers
  | .STATSD_GAUGE => conf.delete_gauges
  | .STATSD_SET => conf.delete_sets

/-- `statsd_read`: iterate over all cells; an idle cell whose kind has the
delete flag set is only recorded for deletion; any other cell is submitted
and reset (`updates_num := 0`, set cleared for set cells).  The recorded
deletions are applied to the table only after the iteration completes. -/
def statsd_read_step (conf : StatsdConf) (flush_time : ℕ)
    (acc : List Emission × List (List Char × StatsdMetric) × List (List Char))
    (kv : List Char × StatsdMetric) :
    List Emission × List (List Char × StatsdMetric) × List (List Char) :=
  if kv.2.updates_num = 0 ∧ statsd_delete_flag conf kv.2.type = true then
    (acc.1, acc.2.1 ++ [kv], acc.2.2 ++ [kv.1])
  else
    let sub := statsd_metric_submit conf flush_time (kv.1.drop 2) kv.2
    let m2 : StatsdMetric := { sub.2 with updates_num := 0 }
    let m3 : StatsdMetric :=
      if m2.type = .STATSD_SET then { m2 with set := [] } else m2
    (acc.1 ++ sub.1, acc.2.1 ++ [(kv.1, m3)], acc.2.2)

def statsd_read (conf : StatsdConf) (flush_time : ℕ)
    (tree : List (List Char × StatsdMetric)) :
    List Emission × List (List Char × StatsdMetric) :=
  let r := tree.foldl (statsd_read_step conf flush_time) ([], [], [])
  (r.1, (r.2.1).filter (fun kv => decide (kv.1 ∉ r.2.2)))

/-- The per-cell idle-deletion test of `statsd_read`: no updates since the
last flush, and the kind's delete-on-idle flag set. -/
def statsd_cell_idle_delete (conf : StatsdConf)
    (kv : List Char × StatsdMetric) : Prop :=
  kv.2.updates_num = 0 ∧ statsd_delete_flag conf kv.2.type = true

instance (conf : StatsdConf) (kv : List Char × StatsdMetric) :
    Decidable (statsd_cell_idle_delete conf kv) := by
  unfold statsd_cell_idle_delete
  infer_instance

/-- What one cell contributes to a flush's emissions: nothing when it is
scheduled for idle deletion, its submission otherwise. -/
def statsd_cell_emissions (conf : StatsdConf) (flush_time : ℕ)
    (kv : List Char × StatsdMetric) : List Emission :=
  if statsd_cell_idle_delete conf kv then []
  else (statsd_metric_submit conf flush_time (kv.1.drop 2) kv.2).1

/-- A cell's table entry after the iteration body of `statsd_read` (before
the deferred deletions are applied). -/
def statsd_cell_after (conf : StatsdConf) (flush_time : ℕ)
    (kv : List Char × StatsdMetric) : List Char × StatsdMetric :=
  if statsd_cell_idle_delete conf kv then kv
  else
    let sub := statsd_metric_submit conf flush_time (kv.1.drop 2) kv.2
    let m2 : StatsdMetric := { sub.2 with updates_num := 0 }
    (kv.1, if m2.type = .STATSD_SET then { m2 with set := [] } else m2)

/-- Iterated flushes: run `statsd_read` `n` times, collecting each flush's
emissions. -/
def statsd_read_iter (conf : StatsdConf) (flush_time : ℕ) :
    ℕ → List (List Char × StatsdMetric) →
    List (List Emission) × List (List Char × StatsdMetric)
  | 0, tree => ([], tree)
  | n + 1, tree =>
      let r := statsd_read conf flush_time tree
      let rest := statsd_read_iter conf flush_time n r.2
      (r.1 :: rest.1, rest.2)

/-! ## Event-sequence runs used by the per-cell claims -/

/-- A counter cell's history between process start and some flush: parsed
updates (already validated, value `v`, sample rate `r`) interleaved with
flushes. -/
inductive CounterEvent
  | upd (v r : ℚ)
  | flush
deriving DecidableEq, Repr

/-- One counter event applied to a cell: an update goes through the
`statsd_handle_counter` → `statsd_metric_add` path (contribution `v / r`); a
flush goes through `statsd_metric_submit`. -/
def statsd_counter_step (conf : StatsdConf) (flush_time : ℕ)
    (m : StatsdMetric) : CounterEvent → StatsdMetric
  | .upd v r => statsd_apply_cell (.counterAdd [] ((FloatV.fin v).divQ r)) m
  | .flush => (statsd_metric_submit conf flush_time [] m).2

/-- Run a counter event sequence. -/
def statsd_counter_run (conf : StatsdConf) (flush_time : ℕ)
    (m : StatsdMetric) : List CounterEvent → StatsdMetric
  | [] => m
  | e :: es => statsd_counter_run conf flush_time (statsd_counter_step conf flush_time m e) es

/-- The integer credited to the monotonic total at each flush of the event
sequence: `nearbyint` of the residual right before that flush. -/
def counter_flush_credits (conf : StatsdConf) (flush_time : ℕ)
    (m : StatsdMetric) : List CounterEvent → List ℤ
  | [] => []
  | .upd v r :: es =>
      counter_flush_credits conf flush_time
        (statsd_counter_step conf flush_time m (.upd v r)) es
  | .flush :: es =>
      nearbyint m.value ::
        counter_flush_credits conf flush_time
          (statsd_counter_step conf flush_time m .flush) es

/-- The exact sum `Σ vᵢ / rᵢ` over the updates of an event sequence. -/
def counter_update_total : List CounterEvent → ℚ
  | [] => 0
  | .upd v r :: es => v / r + counter_update_total es
  | .flush :: es => counter_update_total es

/-- Apply a sequence of gauge value strings to a cell, each through
`statsd_handle_gauge`; a line that fails to parse is dropped (logged in C)
and leaves the cell unchanged. -/
def statsd_gauge_run (name : List Char) (m : StatsdMetric) :
    List (List Char) → StatsdMetric
  | [] => m
  | s :: ss =>
      statsd_gauge_run name
        (match statsd_handle_gauge name s with
         | some a => statsd_apply_cell a m
         | none => m) ss

/-- The emissions of `l` whose `type_instance` is `ti`. -/
def ems_for (ti : List Char) (l : List Emission) : List Emission :=
  l.filter (fun e => decide (e.type_instance = ti))

/-- The emissions of `l` whose `vl.type` is `ty`. -/
def ems_for_type (ty : String) (l : List Emission) : List Emission :=
  l.filter (fun e => decide (e.type = ty))

/-! ## Helper lemmas -/

theorem sizeSub_of_le {a b : ℕ} (hba : b ≤ a) (ha : a < 2 ^ 64) :
    sizeSub a b = a - b := by
  unfold sizeSub
  omega

/-! ## C9 — explicit flush gate -/

/-- C9: an explicit flush with a positive `min_age` threshold sends and
reinitializes the buffer exactly when `last_update + min_age ≤ now` and the
buffer is non-empty; when the threshold is not met or the buffer is empty it
returns success (0) and leaves the buffer state (contents, fill,
last_update) unchanged. -/
theorem wifxudp_flush_gate (timeout now : ℕ) (s : SendBuffer)
    (h : 0 < timeout) :
    ((0 < send_buffer_fill s ∧ s.last_update + timeout ≤ now) →
      write_influxdb_udp_flush timeout now s =
        (write_influxdb_udp_init_buffer, [s.bytes], 0)) ∧
    ((send_buffer_fill s = 0 ∨ now < s.last_update + timeout) →
      write_influxdb_udp_flush timeout now s = (s, [], 0)) := by
  constructor
  · rintro ⟨h1, h2⟩
    unfold write_influxdb_udp_flush flush_buffer
    rw [if_pos h1, if_neg (by omega)]
  · rintro (h1 | h1)
    · unfold write_influxdb_udp_flush
      rw [if_neg (by omega)]
    · unfold write_influxdb_udp_flush
      by_cases h2 : 0 < send_buffer_fill s
      · rw [if_pos h2, if_pos ⟨h, h1⟩]
      · rw [if_neg h2]

/-- Witness for C9 at a concrete state: `last_update = 3`, `min_age = 10`,
`now = 20`, two bytes buffered, so the threshold is met and the buffer is
flushed and reinitialized. -/
theorem wifxudp_flush_gate_witness :
    write_influxdb_udp_flush 10 20 ⟨[1, 2], 3⟩ =
      (write_influxdb_udp_init_buffer, [[1, 2]], 0) ∧
    write_influxdb_udp_flush 10 8 ⟨[1, 2], 3⟩ = (⟨[1, 2], 3⟩, [], 0) :=
  ⟨(wifxudp_flush_gate 10 20 ⟨[1, 2], 3⟩ (by decide)).1 (by decide),
    (wifxudp_flush_gate 10 8 ⟨[1, 2], 3⟩ (by decide)).2 (by decide)⟩

/-! ## C8 — endpoint send lifecycle -/

theorem sockent_client_connect_noop (env : ConnectEnv) (now : ℕ)
    (c : SockentClient) (h1 : c.fd.isSome)
    (h2 : ¬ (c.resolve_interval ≠ 0 ∧ c.next_resolve_reconnect < now)) :
    sockent_client_connect env now c = (c, true) := by
  unfold sockent_client_connect
  rw [if_pos ⟨h1, h2⟩]

theorem send_buffer_cons_transient (env : ConnectEnv) (now : ℕ)
    (c : SockentClient) (h1 : c.fd.isSome)
    (h2 : ¬ (c.resolve_interval ≠ 0 ∧ c.next_resolve_reconnect < now))
    (o : SendResult) (ho : o = SendResult.eintr ∨ o = SendResult.eagain)
    (rest : List SendResult) :
    write_influxdb_udp_send_buffer env now (o :: rest) c =
      write_influxdb_udp_send_buffer env now rest c := by
  rcases ho with rfl | rfl <;>
  · rw [write_influxdb_udp_send_buffer]
    simp [sockent_client_connect_noop env now c h1 h2]

theorem send_buffer_transient_then (env : ConnectEnv) (now : ℕ)
    (c : SockentClient) (h1 : c.fd.isSome)
    (h2 : ¬ (c.resolve_interval ≠ 0 ∧ c.next_resolve_reconnect < now))
    (outs : List SendResult)
    (ho : ∀ o ∈ outs, o = SendResult.eintr ∨ o = SendResult.eagain)
    (last : SendResult) :
    write_influxdb_udp_send_buffer env now (outs ++ [last]) c =
      write_influxdb_udp_send_buffer env now [last] c := by
  induction outs with
  | nil => rfl
  | cons o rest ih =>
      rw [List.cons_append,
        send_buffer_cons_transient env now c h1 h2 o (ho o (by simp)),
        ih (fun x hx => ho x (by simp [hx]))]

/-- C8 (amended: staleness is strict, `next_resolve_deadline < now`): a send
first connects, which is a no-op when the endpoint has an fd and is not
stale; when it is stale, the address is re-resolved; `EINTR`/`EAGAIN` sendto
results are retried until a different outcome, a successful send leaves the
endpoint connected and unchanged, and any other sendto error disconnects the
endpoint (fd closed, cached address freed) — the function returns no error
in any of these cases. -/
theorem wifxudp_send_lifecycle :
    (∀ (env : ConnectEnv) (now : ℕ) (c : SockentClient), c.fd.isSome →
      ¬ (c.resolve_interval ≠ 0 ∧ c.next_resolve_reconnect < now) →
      sockent_client_connect env now c = (c, true)) ∧
    (∀ (env : ConnectEnv) (now : ℕ) (c : SockentClient) ai rest,
      c.fd.isSome → c.resolve_interval ≠ 0 → c.next_resolve_reconnect < now →
      env.resolve = some (ai :: rest) → ai.sock_ok = true →
      (sockent_client_connect env now c).1.addr = some ai.addr ∧
      (sockent_client_connect env now c).2 = true) ∧
    (∀ (env : ConnectEnv) (now : ℕ) (c : SockentClient) outs, c.fd.isSome →
      ¬ (c.resolve_interval ≠ 0 ∧ c.next_resolve_reconnect < now) →
      (∀ o ∈ outs, o = SendResult.eintr ∨ o = SendResult.eagain) →
      write_influxdb_udp_send_buffer env now (outs ++ [SendResult.ok]) c = c) ∧
    (∀ (env : ConnectEnv) (now : ℕ) (c : SockentClient) outs, c.fd.isSome →
      ¬ (c.resolve_interval ≠ 0 ∧ c.next_resolve_reconnect < now) →
      (∀ o ∈ outs, o = SendResult.eintr ∨ o = SendResult.eagain) →
      write_influxdb_udp_send_buffer env now (outs ++ [SendResult.err]) c =
          sockent_client_disconnect c ∧
        (sockent_client_disconnect c).fd = none ∧
        (sockent_client_disconnect c).addr = none) := by
  refine ⟨sockent_client_connect_noop, ?_, ?_, ?_⟩
  · intro env now c ai rest h1 h2 h3 hres hok
    unfold sockent_client_connect
    rw [if_neg (by intro hc; exact hc.2 ⟨h2, h3⟩), hres]
    simp only [sockent_connect_loop, h1, if_pos, hok, if_true]
    split
    · simp_all
    · split <;> simp
  · intro env now c outs h1 h2 ho
    rw [send_buffer_transient_then env now c h1 h2 outs ho]
    simp only [write_influxdb_udp_send_buffer,
      sockent_client_connect_noop env now c h1 h2]
    rfl
  · intro env now c outs h1 h2 ho
    refine ⟨?_, rfl, rfl⟩
    rw [send_buffer_transient_then env now c h1 h2 outs ho]
    simp only [write_influxdb_udp_send_buffer,
      sockent_client_connect_noop env now c h1 h2]
    rfl

/-- Counterexample to C8 as stated: at the exact deadline
(`next_resolve_deadline = now`) the claim's staleness predicate
(`resolve_interval > 0 ∧ next_resolve_deadline ≤ now`) holds and demands a
forced reconnect, but the code's test is strict (`<`), so the connect call
is a no-op and the cached address is not re-resolved; one tick later the
same endpoint does get re-resolved to the new address. -/
theorem wifxudp_stale_boundary_cex :
    (0 < (⟨some 3, some 7, 16, 100, 5⟩ : SockentClient).resolve_interval) ∧
    ((⟨some 3, some 7, 16, 100, 5⟩ : SockentClient).next_resolve_reconnect
      ≤ 100) ∧
    sockent_client_connect ⟨some [⟨true, 9, 16⟩], 4⟩ 100
        ⟨some 3, some 7, 16, 100, 5⟩ =
      (⟨some 3, some 7, 16, 100, 5⟩, true) ∧
    (sockent_client_connect ⟨some [⟨true, 9, 16⟩], 4⟩ 101
        ⟨some 3, some 7, 16, 100, 5⟩).1.addr = some 9 ∧
    (⟨some 3, some 7, 16, 100, 5⟩ : SockentClient).addr = some 7 ∧
    some (9 : ℕ) ≠ some 7 := by
  refine ⟨by decide, by decide, ?_, by decide, by decide, by decide⟩
  decide

/-- Witness for C8 at concrete inputs: a connected, non-stale endpoint; two
transient failures then success leave it unchanged; two transient failures
then a fatal error leave it disconnected. -/
theorem wifxudp_send_lifecycle_witness :
    write_influxdb_udp_send_buffer ⟨some [⟨true, 9, 16⟩], 4⟩ 50
        [SendResult.eintr, SendResult.eagain, SendResult.ok]
        ⟨some 3, some 7, 16, 100, 5⟩ =
      ⟨some 3, some 7, 16, 100, 5⟩ ∧
    write_influxdb_udp_send_buffer ⟨some [⟨true, 9, 16⟩], 4⟩ 50
        [SendResult.eintr, SendResult.err] ⟨some 3, some 7, 16, 100, 5⟩ =
      sockent_client_disconnect ⟨some 3, some 7, 16, 100, 5⟩ :=
  ⟨wifxudp_send_lifecycle.2.2.1 ⟨some [⟨true, 9, 16⟩], 4⟩ 50
      ⟨some 3, some 7, 16, 100, 5⟩ [SendResult.eintr, SendResult.eagain]
      (by decide) (by decide) (by decide),
    (wifxudp_send_lifecycle.2.2.2 ⟨some [⟨true, 9, 16⟩], 4⟩ 50
      ⟨some 3, some 7, 16, 100, 5⟩ [SendResult.eintr]
      (by decide) (by decide) (by decide)).1⟩

/-! ## C1 — datagram batcher bound -/

theorem wifxudp_write_eq_ff (ps now : ℕ) (point : List ℕ) (s : SendBuffer)
    (hL1 : point.length ≠ 0)
    (h1 : sizeSub ps s.bytes.length < point.length)
    (h2 : sizeSub ps point.length < 120) :
    write_influxdb_udp_write ps now point s =
      (write_influxdb_udp_init_buffer, [s.bytes, point]) := by
  unfold write_influxdb_udp_write
  rw [if_neg hL1]
  simp only [send_buffer_fill, flush_buffer]
  rw [if_pos h1]
  simp only [write_influxdb_udp_init_buffer, List.nil_append]
  rw [if_pos h2]
  rfl

theorem wifxudp_write_eq_fn (ps now : ℕ) (point : List ℕ) (s : SendBuffer)
    (hL1 : point.length ≠ 0)
    (h1 : sizeSub ps s.bytes.length < point.length)
    (h2 : ¬ sizeSub ps point.length < 120) :
    write_influxdb_udp_write ps now point s =
      (⟨point, now⟩, [s.bytes]) := by
  unfold write_influxdb_udp_write
  rw [if_neg hL1]
  simp only [send_buffer_fill, flush_buffer]
  rw [if_pos h1]
  simp only [write_influxdb_udp_init_buffer, List.nil_append]
  rw [if_neg h2]
  rfl

theorem wifxudp_write_eq_nf (ps now : ℕ) (point : List ℕ) (s : SendBuffer)
    (hL1 : point.length ≠ 0)
    (h1 : ¬ sizeSub ps s.bytes.length < point.length)
    (h2 : sizeSub ps (s.bytes.length + point.length) < 120) :
    write_influxdb_udp_write ps now point s =
      (write_influxdb_udp_init_buffer, [s.bytes ++ point]) := by
  unfold write_influxdb_udp_write
  rw [if_neg hL1]
  simp only [send_buffer_fill, flush_buffer]
  rw [if_neg h1]
  simp only [List.length_append]
  rw [if_pos h2]
  rfl

theorem wifxudp_write_eq_nn (ps now : ℕ) (point : List ℕ) (s : SendBuffer)
    (hL1 : point.length ≠ 0)
    (h1 : ¬ sizeSub ps s.bytes.length < point.length)
    (h2 : ¬ sizeSub ps (s.bytes.length + point.length) < 120) :
    write_influxdb_udp_write ps now point s =
      (⟨s.bytes ++ point, now⟩, []) := by
  unfold write_influxdb_udp_write
  rw [if_neg hL1]
  simp only [send_buffer_fill, flush_buffer]
  rw [if_neg h1]
  simp only [List.length_append]
  rw [if_neg h2]
  rfl

theorem wifxudp_write_nofit (ps now : ℕ) (point : List ℕ) (s : SendBuffer)
    (hL1 : point.length ≠ 0)
    (hno : sizeSub ps (send_buffer_fill s) < point.length) :
    (write_influxdb_udp_write ps now point s).2 = [s.bytes] ∧
        (write_influxdb_udp_write ps now point s).1.bytes = point ∨
      (write_influxdb_udp_write ps now point s).2 = [s.bytes, point] ∧
        (write_influxdb_udp_write ps now point s).1.bytes = [] := by
  have hno' : sizeSub ps s.bytes.length < point.length := hno
  by_cases h2 : sizeSub ps point.length < 120
  · right
    rw [wifxudp_write_eq_ff ps now point s hL1 hno' h2]
    exact ⟨rfl, rfl⟩
  · left
    rw [wifxudp_write_eq_fn ps now point s hL1 hno' h2]
    exact ⟨rfl, rfl⟩

theorem wifxudp_write_step (ps now : ℕ) (point : List ℕ) (s : SendBuffer)
    (pending : List (List ℕ)) (hps2 : ps ≤ 65535)
    (hfill : s.bytes.length ≤ ps) (hpend : s.bytes = pending.flatten)
    (hL1 : point.length ≠ 0) (hL2 : point.length ≤ ps) :
    ∃ (gs : List (List (List ℕ))) (pending2 : List (List ℕ)),
      (write_influxdb_udp_write ps now point s).2 = gs.map List.flatten ∧
      gs.flatten ++ pending2 = pending ++ [point] ∧
      (write_influxdb_udp_write ps now point s).1.bytes = pending2.flatten ∧
      (write_influxdb_udp_write ps now point s).1.bytes.length ≤ ps ∧
      ∀ d ∈ (write_influxdb_udp_write ps now point s).2, d.length ≤ ps := by
  have hps64 : ps < 2 ^ 64 := by omega
  by_cases h1 : sizeSub ps s.bytes.length < point.length
  · by_cases h2 : sizeSub ps point.length < 120
    · rw [wifxudp_write_eq_ff ps now point s hL1 h1 h2]
      refine ⟨[pending, [point]], [], ?_, by simp, rfl, ?_, ?_⟩
      · simp [hpend]
      · simp [write_influxdb_udp_init_buffer]
      · intro d hd
        simp only [List.mem_cons, List.not_mem_nil, or_false] at hd
        rcases hd with hd | hd <;> subst hd
        · exact hfill
        · exact hL2
    · rw [wifxudp_write_eq_fn ps now point s hL1 h1 h2]
      refine ⟨[pending], [point], ?_, by simp, by simp, by simpa using hL2, ?_⟩
      · simp [hpend]
      · intro d hd
        simp only [List.mem_cons, List.not_mem_nil, or_false] at hd
        subst hd
        exact hfill
  · have hroom : s.bytes.length + point.length ≤ ps := by
      rw [sizeSub_of_le hfill hps64] at h1
      omega
    by_cases h2 : sizeSub ps (s.bytes.length + point.length) < 120
    · rw [wifxudp_write_eq_nf ps now point s hL1 h1 h2]
      refine ⟨[pending ++ [point]], [], ?_, by simp, rfl, ?_, ?_⟩
      · simp [hpend]
      · simp [write_influxdb_udp_init_buffer]
      · intro d hd
        simp only [List.mem_cons, List.not_mem_nil, or_false] at hd
        subst hd
        simpa using hroom
    · rw [wifxudp_write_eq_nn ps now point s hL1 h1 h2]
      refine ⟨[], pending ++ [point], by simp, by simp, ?_, by simpa using hroom,
        by simp⟩
      simp [hpend]

theorem wifxudp_run_spec (ps : ℕ) (hps2 : ps ≤ 65535)
    (ws : List (ℕ × List ℕ)) :
    ∀ (s : SendBuffer) (pending : List (List ℕ)),
      s.bytes = pending.flatten → s.bytes.length ≤ ps →
      (∀ w ∈ ws, w.2.length ≠ 0 ∧ w.2.length ≤ ps) →
      ∃ (gs : List (List (List ℕ))) (pending2 : List (List ℕ)),
        (write_influxdb_udp_run ps ws s).2 = gs.map List.flatten ∧
        gs.flatten ++ pending2 = pending ++ ws.map Prod.snd ∧
        (write_influxdb_udp_run ps ws s).1.bytes = pending2.flatten ∧
        (write_influxdb_udp_run ps ws s).1.bytes.length ≤ ps ∧
        ∀ d ∈ (write_influxdb_udp_run ps ws s).2, d.length ≤ ps := by
  induction ws with
  | nil =>
      intro s pending h1 h2 _h3
      exact ⟨[], pending, by simp [write_influxdb_udp_run], by simp, h1, h2,
        by simp [write_influxdb_udp_run]⟩
  | cons w ws ih =>
      intro s pending h1 h2 h3
      obtain ⟨hw1, hw2⟩ := h3 w (List.mem_cons_self w ws)
      obtain ⟨gs1, p1, e1, e2, e3, e4, e5⟩ :=
        wifxudp_write_step ps w.1 w.2 s pending hps2 h2 h1 hw1 hw2
      obtain ⟨gs2, p2, f1, f2, f3, f4, f5⟩ :=
        ih (write_influxdb_udp_write ps w.1 w.2 s).1 p1 e3 e4
          (fun x hx => h3 x (List.mem_cons_of_mem w hx))
      refine ⟨gs1 ++ gs2, p2, ?_, ?_, f3, f4, ?_⟩
      · show (write_influxdb_udp_run ps (w :: ws) s).2 = _
        simp only [write_influxdb_udp_run, List.map_append, e1, f1]
      · rw [List.flatten_append, List.append_assoc, f2, ← List.append_assoc, e2]
        simp
      · intro d hd
        simp only [write_influxdb_udp_run, List.mem_append] at hd
        rcases hd with hd | hd
        · exact e5 d hd
        · exact f5 d hd

/-- C1, amended: the batcher bound holds provided every rendered point is no
longer than `packet_size`.  Starting from the initialized buffer, for any
write sequence of non-empty points of length at most `packet_size`: the fill
never exceeds `packet_size`, every emitted datagram is at most `packet_size`
bytes, the datagrams are the joins of consecutive groups of whole points (no
point is split across datagrams; the unsent remainder stays whole in the
buffer), and a write whose point does not fit
(`packet_size - fill < L`) first flushes and reinitializes the buffer and
then appends the whole point. -/
theorem wifxudp_batcher_bound (ps : ℕ) (ws : List (ℕ × List ℕ))
    (_hps1 : 1024 ≤ ps) (hps2 : ps ≤ 65535)
    (hw : ∀ w ∈ ws, w.2.length ≠ 0 ∧ w.2.length ≤ ps) :
    (send_buffer_fill
        (write_influxdb_udp_run ps ws write_influxdb_udp_init_buffer).1 ≤ ps) ∧
    (∀ d ∈ (write_influxdb_udp_run ps ws write_influxdb_udp_init_buffer).2,
      d.length ≤ ps) ∧
    (∃ (gs : List (List (List ℕ))) (pending : List (List ℕ)),
      (write_influxdb_udp_run ps ws write_influxdb_udp_init_buffer).2 =
        gs.map List.flatten ∧
      gs.flatten ++ pending = ws.map Prod.snd ∧
      (write_influxdb_udp_run ps ws write_influxdb_udp_init_buffer).1.bytes =
        pending.flatten) ∧
    (∀ (now : ℕ) (point : List ℕ) (s : SendBuffer), point.length ≠ 0 →
      sizeSub ps (send_buffer_fill s) < point.length →
      (write_influxdb_udp_write ps now point s).2 = [s.bytes] ∧
          (write_influxdb_udp_write ps now point s).1.bytes = point ∨
        (write_influxdb_udp_write ps now point s).2 = [s.bytes, point] ∧
          (write_influxdb_udp_write ps now point s).1.bytes = []) := by
  obtain ⟨gs, pending, e1, e2, e3, e4, e5⟩ :=
    wifxudp_run_spec ps hps2 ws write_influxdb_udp_init_buffer [] rfl
      (by simp [write_influxdb_udp_init_buffer]) hw
  refine ⟨e4, e5, ⟨gs, pending, e1, by simpa using e2, e3⟩, ?_⟩
  intro now point s hL1 hno
  exact wifxudp_write_nofit ps now point s hL1 hno

/-- Counterexample to C1 as stated: `format_influxdb_value_list` renders
into a fixed 1452-byte scratch buffer regardless of the configured packet
size, so a single 1451-byte point written with `MaxPacketSize = 1024` drives
the fill to 1451 > 1024 (at this input the C code `memcpy`s past the end of
its 1024-byte heap send buffer). -/
theorem wifxudp_batcher_bound_cex :
    1024 ≤ 1024 ∧ 1024 ≤ 65535 ∧
    (List.replicate 1451 (7 : ℕ)).length ≠ 0 ∧
    send_buffer_fill
        (write_influxdb_udp_run 1024 [(5, List.replicate 1451 (7 : ℕ))]
          write_influxdb_udp_init_buffer).1 = 1451 ∧
    ¬ (1451 ≤ 1024) := by
  have hlen : (List.replicate 1451 (7 : ℕ)).length = 1451 :=
    List.length_replicate 1451 7
  have hL1 : (List.replicate 1451 (7 : ℕ)).length ≠ 0 := by
    rw [hlen]
    norm_num
  have h1 : sizeSub 1024 write_influxdb_udp_init_buffer.bytes.length <
      (List.replicate 1451 (7 : ℕ)).length := by
    simp only [write_influxdb_udp_init_buffer]
    rw [hlen]
    norm_num [sizeSub]
  have h2 : ¬ sizeSub 1024 (List.replicate 1451 (7 : ℕ)).length < 120 := by
    rw [hlen]
    norm_num [sizeSub]
  have hw := wifxudp_write_eq_fn 1024 5 (List.replicate 1451 (7 : ℕ))
    write_influxdb_udp_init_buffer hL1 h1 h2
  refine ⟨by norm_num, by norm_num, hL1, ?_, by norm_num⟩
  show send_buffer_fill (write_influxdb_udp_run 1024 _ _).1 = 1451
  simp only [write_influxdb_udp_run, hw]
  exact hlen

/-- Witness for C1 (amended) at `packet_size = 1024` with two small
writes. -/
theorem wifxudp_batcher_bound_witness :
    (send_buffer_fill
        (write_influxdb_udp_run 1024 [(0, [7]), (1, [8, 9])]
          write_influxdb_udp_init_buffer).1 ≤ 1024) ∧
    (∀ d ∈ (write_influxdb_udp_run 1024 [(0, [7]), (1, [8, 9])]
        write_influxdb_udp_init_buffer).2, d.length ≤ 1024) ∧
    (∃ (gs : List (List (List ℕ))) (pending : List (List ℕ)),
      (write_influxdb_udp_run 1024 [(0, [7]), (1, [8, 9])]
          write_influxdb_udp_init_buffer).2 = gs.map List.flatten ∧
      gs.flatten ++ pending =
        [((0 : ℕ), [(7 : ℕ)]), (1, [8, 9])].map Prod.snd ∧
      (write_influxdb_udp_run 1024 [(0, [7]), (1, [8, 9])]
          write_influxdb_udp_init_buffer).1.bytes = pending.flatten) ∧
    (∀ (now : ℕ) (point : List ℕ) (s : SendBuffer), point.length ≠ 0 →
      sizeSub 1024 (send_buffer_fill s) < point.length →
      (write_influxdb_udp_write 1024 now point s).2 = [s.bytes] ∧
          (write_influxdb_udp_write 1024 now point s).1.bytes = point ∨
        (write_influxdb_udp_write 1024 now point s).2 = [s.bytes, point] ∧
          (write_influxdb_udp_write 1024 now point s).1.bytes = []) :=
  wifxudp_batcher_bound 1024 [(0, [7]), (1, [8, 9])] (by norm_num)
    (by norm_num) (by decide)


/-! ## statsd submit: per-kind characterizations -/

theorem submit_gauge (conf : StatsdConf) (t : ℕ) (name : List Char)
    (m : StatsdMetric) (h : m.type = .STATSD_GAUGE) :
    statsd_metric_submit conf t name m =
      ([⟨"gauge", name, .g m.value, none⟩], m) := by
  unfold statsd_metric_submit
  rw [if_pos h]

theorem submit_set (conf : StatsdConf) (t : ℕ) (name : List Char)
    (m : StatsdMetric) (h : m.type = .STATSD_SET) :
    statsd_metric_submit conf t name m =
      ([⟨"objects", name, .g (m.set.length), none⟩], m) := by
  unfold statsd_metric_submit
  rw [if_neg (by rw [h]; intro hc; cases hc), if_neg (by rw [h]; intro hc; cases hc),
    if_pos h]

theorem submit_counter (conf : StatsdConf) (t : ℕ) (name : List Char)
    (m : StatsdMetric) (h : m.type = .STATSD_COUNTER) :
    statsd_metric_submit conf t name m =
      ((if conf.counter_sum then
          [⟨"count", name, .g (nearbyint m.value), none⟩] else []) ++
       (if conf.counter_gauge then
          [⟨"gauge", name, .g m.value, none⟩] else []) ++
       [⟨"derive", name, .d (m.counter + nearbyint m.value), none⟩],
       { m with value := m.value - nearbyint m.value,
                counter := m.counter + nearbyint m.value }) := by
  unfold statsd_metric_submit
  rw [if_neg (by rw [h]; intro hc; cases hc), if_neg (by rw [h]; intro hc; cases hc),
    if_neg (by rw [h]; intro hc; cases hc)]

theorem submit_timer (conf : StatsdConf) (t : ℕ) (name : List Char)
    (m : StatsdMetric) (h : m.type = .STATSD_TIMER) :
    statsd_metric_submit conf t name m =
      ([⟨"latency", name ++ "-average".toList,
          (if 0 < m.updates_num then
            .g (latency_counter_get_average m.latency) else .gnan), some t⟩]
       ++ (if conf.timer_lower then
            [⟨"latency", name ++ "-lower".toList,
              (if 0 < m.updates_num then
                .g (latency_counter_get_min m.latency) else .gnan), some t⟩]
          else [])
       ++ (if conf.timer_upper then
            [⟨"latency", name ++ "-upper".toList,
              (if 0 < m.updates_num then
                .g (latency_counter_get_max m.latency) else .gnan), some t⟩]
          else [])
       ++ (if conf.timer_sum then
            [⟨"latency", name ++ "-sum".toList,
              (if 0 < m.updates_num then
                .g (latency_counter_get_sum m.latency) else .gnan), some t⟩]
          else [])
       ++ (conf.timer_percentile.map fun p =>
            ⟨"latency", name ++ percentileTag p,
              (if 0 < m.updates_num then
                .g (latency_counter_get_percentile p m.latency) else .gnan),
              some t⟩)
       ++ (if conf.timer_count then
            [⟨"gauge", name ++ "-count".toList,
              .g (latency_counter_get_num m.latency), some t⟩]
          else []),
       { m with latency := [] }) := by
  unfold statsd_metric_submit
  rw [if_neg (by rw [h]; intro hc; cases hc), if_pos h]

/-! ## C2 — counter residual law -/

theorem counter_step_upd (conf : StatsdConf) (t : ℕ) (v r : ℚ)
    (m : StatsdMetric) :
    statsd_counter_step conf t m (.upd v r) =
      { m with value := m.value + v / r, updates_num := m.updates_num + 1 } :=
  rfl

theorem counter_step_flush (conf : StatsdConf) (t : ℕ) (m : StatsdMetric)
    (h : m.type = .STATSD_COUNTER) :
    statsd_counter_step conf t m .flush =
      { m with value := m.value - nearbyint m.value,
               counter := m.counter + nearbyint m.value } := by
  show (statsd_metric_submit conf t [] m).2 = _
  rw [submit_counter conf t [] m h]

theorem counter_run_law (conf : StatsdConf) (t : ℕ) (es : List CounterEvent) :
    ∀ m : StatsdMetric, m.type = .STATSD_COUNTER →
      (statsd_counter_run conf t m es).type = .STATSD_COUNTER ∧
      (statsd_counter_run conf t m es).counter =
        m.counter + (counter_flush_credits conf t m es).sum ∧
      (statsd_counter_run conf t m es).value +
          ((statsd_counter_run conf t m es).counter : ℚ) =
        m.value + (m.counter : ℚ) + counter_update_total es := by
  induction es with
  | nil =>
      intro m h
      exact ⟨h, by simp [statsd_counter_run, counter_flush_credits],
        by simp [statsd_counter_run, counter_update_total]⟩
  | cons e es ih =>
      intro m h
      cases e with
      | upd v r =>
          have hstep := counter_step_upd conf t v r m
          obtain ⟨g1, g2, g3⟩ := ih (statsd_counter_step conf t m (.upd v r))
            (by rw [hstep]; exact h)
          simp only [statsd_counter_run, counter_flush_credits,
            counter_update_total]
          refine ⟨g1, ?_, ?_⟩
          · rw [g2, hstep]
          · rw [g3, hstep]
            show m.value + v / r + (m.counter : ℚ) + counter_update_total es =
              m.value + (m.counter : ℚ) + (v / r + counter_update_total es)
            ring
      | flush =>
          have hstep := counter_step_flush conf t m h
          obtain ⟨g1, g2, g3⟩ := ih (statsd_counter_step conf t m .flush)
            (by rw [hstep]; exact h)
          simp only [statsd_counter_run, counter_flush_credits,
            counter_update_total, List.sum_cons]
          refine ⟨g1, ?_, ?_⟩
          · rw [g2, hstep]
            show m.counter + nearbyint m.value + _ = _
            ring
          · rw [g3, hstep]
            show m.value - (nearbyint m.value : ℚ) +
                ((m.counter + nearbyint m.value : ℤ) : ℚ) +
                counter_update_total es =
              m.value + (m.counter : ℚ) + counter_update_total es
            push_cast
            ring

/-- C2, amended (the code rounds with `nearbyint`, round-half-to-even, not
`floor`): each counter update with value `v` and sample rate `r` adds exactly
`v / r` to the cell's residual; each flush adds `nearbyint(residual)` to the
monotonic total and subtracts the same amount from the residual, and the
total is changed by nothing else — so after any event sequence the total
equals its initial value plus the sum over flushes of `nearbyint` of the
residual right before that flush, and `residual + total` carries exactly
`Σ vᵢ / rᵢ`. -/
theorem statsd_counter_residual_law (conf : StatsdConf) (t : ℕ)
    (m : StatsdMetric) (es : List CounterEvent)
    (h : m.type = .STATSD_COUNTER) :
    (∀ (v r : ℚ) (mm : StatsdMetric), statsd_counter_step conf t mm (.upd v r) =
      { mm with value := mm.value + v / r,
                updates_num := mm.updates_num + 1 }) ∧
    (∀ mm : StatsdMetric, mm.type = .STATSD_COUNTER →
      statsd_counter_step conf t mm .flush =
        { mm with value := mm.value - nearbyint mm.value,
                  counter := mm.counter + nearbyint mm.value }) ∧
    ((statsd_counter_run conf t m es).counter =
      m.counter + (counter_flush_credits conf t m es).sum) ∧
    ((statsd_counter_run conf t m es).value +
        ((statsd_counter_run conf t m es).counter : ℚ) =
      m.value + (m.counter : ℚ) + counter_update_total es) :=
  ⟨fun v r mm => counter_step_upd conf t v r mm,
    fun mm hmm => counter_step_flush conf t mm hmm,
    (counter_run_law conf t es m h).2.1,
    (counter_run_law conf t es m h).2.2⟩

/-- Counterexample to C2 as stated: after the single update `1.5` (with
sample rate 1) the residual is `3/2`; the flush credits
`nearbyint(3/2) = 2` to the total (ties-to-even), not `floor(3/2) = 1`, so
the claimed `Σ floor(residual before flush) = total` equation fails. -/
theorem statsd_counter_residual_law_cex :
    (statsd_counter_run statsd_conf_default 0
        ⟨.STATSD_COUNTER, 0, 0, [], [], 0⟩ [.upd (3 / 2) 1]).value = 3 / 2 ∧
    (statsd_counter_run statsd_conf_default 0
        ⟨.STATSD_COUNTER, 0, 0, [], [], 0⟩ [.upd (3 / 2) 1, .flush]).counter
      = 2 ∧
    (⌊(3 : ℚ) / 2⌋ = 1) ∧ ((2 : ℤ) ≠ 1) := by
  have hf : ⌊(3 : ℚ) / 2⌋ = 1 := by
    rw [Int.floor_eq_iff]
    norm_num
  have hnb : nearbyint (3 / 2 : ℚ) = 2 := by
    unfold nearbyint
    rw [hf]
    norm_num
  refine ⟨?_, ?_, hf, by norm_num⟩
  · simp only [statsd_counter_run, counter_step_upd]
    norm_num
  · obtain ⟨-, g2, -⟩ := counter_run_law statsd_conf_default 0
      [.upd (3 / 2) 1, .flush] ⟨.STATSD_COUNTER, 0, 0, [], [], 0⟩ rfl
    rw [g2]
    simp only [counter_flush_credits, counter_step_upd, List.sum_cons,
      List.sum_nil]
    norm_num [hnb]

/-- Witness for C2 (amended) on a concrete run: two updates and two
flushes. -/
theorem statsd_counter_residual_law_witness :
    ((statsd_counter_run statsd_conf_default 0
        ⟨.STATSD_COUNTER, 0, 0, [], [], 0⟩
        [.upd 3 1, .flush, .upd 2 (1 / 2), .flush]).counter =
      0 + (counter_flush_credits statsd_conf_default 0
        ⟨.STATSD_COUNTER, 0, 0, [], [], 0⟩
        [.upd 3 1, .flush, .upd 2 (1 / 2), .flush]).sum) ∧
    ((statsd_counter_run statsd_conf_default 0
          ⟨.STATSD_COUNTER, 0, 0, [], [], 0⟩
          [.upd 3 1, .flush, .upd 2 (1 / 2), .flush]).value +
        ((statsd_counter_run statsd_conf_default 0
          ⟨.STATSD_COUNTER, 0, 0, [], [], 0⟩
          [.upd 3 1, .flush, .upd 2 (1 / 2), .flush]).counter : ℚ) =
      0 + ((0 : ℤ) : ℚ) + counter_update_total
        [.upd 3 1, .flush, .upd 2 (1 / 2), .flush]) :=
  ⟨(statsd_counter_residual_law statsd_conf_default 0
      ⟨.STATSD_COUNTER, 0, 0, [], [], 0⟩
      [.upd 3 1, .flush, .upd 2 (1 / 2), .flush] rfl).2.2.1,
    (statsd_counter_residual_law statsd_conf_default 0
      ⟨.STATSD_COUNTER, 0, 0, [], [], 0⟩
      [.upd 3 1, .flush, .upd 2 (1 / 2), .flush] rfl).2.2.2⟩

/-! ## C3 — counter_gauge flush behavior -/

/-- C3, amended: with `counter_gauge` enabled, flushing a counter cell does
emit a "gauge"-typed measurement carrying the residual before `delta` is
subtracted; but afterwards the residual is NOT reset to 0 — the momentary
`metric->value = 0.0` is undone by the restore after the dispatch, and the
common path then leaves `residual - nearbyint(residual)`, exactly as when
the option is disabled. -/
theorem statsd_counter_gauge_emission (conf : StatsdConf) (t : ℕ)
    (name : List Char) (m : StatsdMetric) (h : m.type = .STATSD_COUNTER)
    (hg : conf.counter_gauge = true) :
    (Emission.mk "gauge" name (.g m.value) none ∈
      (statsd_metric_submit conf t name m).1) ∧
    ((statsd_metric_submit conf t name m).2.value =
      m.value - nearbyint m.value) ∧
    ((statsd_metric_submit conf t name m).2.counter =
      m.counter + nearbyint m.value) := by
  rw [submit_counter conf t name m h]
  refine ⟨?_, rfl, rfl⟩
  simp [hg]

/-- Counterexample to C3 as stated: a counter cell with residual `1/2`
flushed under `counter_gauge` keeps residual
`1/2 - nearbyint(1/2) = 1/2 ≠ 0` — the residual is not reset to 0. -/
theorem statsd_counter_gauge_cex :
    (Emission.mk "gauge" [] (.g (1 / 2)) none ∈
      (statsd_metric_submit
        { statsd_conf_default with counter_gauge := true } 0 []
        ⟨.STATSD_COUNTER, 1 / 2, 0, [], [], 1⟩).1) ∧
    (statsd_metric_submit
        { statsd_conf_default with counter_gauge := true } 0 []
        ⟨.STATSD_COUNTER, 1 / 2, 0, [], [], 1⟩).2.value = 1 / 2 ∧
    ((1 : ℚ) / 2 ≠ 0) := by
  have hf : ⌊(1 : ℚ) / 2⌋ = 0 := by
    rw [Int.floor_eq_iff]
    norm_num
  have hnb : nearbyint (1 / 2 : ℚ) = 0 := by
    unfold nearbyint
    rw [hf]
    norm_num
  have hsub := submit_counter { statsd_conf_default with counter_gauge := true }
    0 [] ⟨.STATSD_COUNTER, 1 / 2, 0, [], [], 1⟩ rfl
  rw [hsub]
  refine ⟨by simp, ?_, by norm_num⟩
  show (1 : ℚ) / 2 - nearbyint ((1 : ℚ) / 2) = 1 / 2
  rw [hnb]
  norm_num

/-- Witness for C3 (amended) at a concrete counter cell with residual 3/2
and `counter_gauge` enabled. -/
theorem statsd_counter_gauge_emission_witness :
    (Emission.mk "gauge" [] (.g (3 / 2)) none ∈
      (statsd_metric_submit
        { statsd_conf_default with counter_gauge := true } 0 []
        ⟨.STATSD_COUNTER, 3 / 2, 0, [], [], 1⟩).1) ∧
    ((statsd_metric_submit
        { statsd_conf_default with counter_gauge := true } 0 []
        ⟨.STATSD_COUNTER, 3 / 2, 0, [], [], 1⟩).2.value =
      3 / 2 - nearbyint (3 / 2)) ∧
    ((statsd_metric_submit
        { statsd_conf_default with counter_gauge := true } 0 []
        ⟨.STATSD_COUNTER, 3 / 2, 0, [], [], 1⟩).2.counter =
      0 + nearbyint (3 / 2)) :=
  statsd_counter_gauge_emission
    { statsd_conf_default with counter_gauge := true } 0 []
    ⟨.STATSD_COUNTER, 3 / 2, 0, [], [], 1⟩ rfl rfl

/-! ## C7 — gauge semantics -/

theorem handle_gauge_delta (name s : List Char) (q : ℚ)
    (hp : statsd_parse_value s = some (.fin q))
    (hh : s.head? = some '+' ∨ s.head? = some '-') :
    statsd_handle_gauge name s = some (.gaugeAdd name (.fin q)) := by
  unfold statsd_handle_gauge
  rw [hp]
  simp only [if_pos hh]

theorem handle_gauge_abs (name s : List Char) (q : ℚ)
    (hp : statsd_parse_value s = some (.fin q))
    (h1 : s.head? ≠ some '+') (h2 : s.head? ≠ some '-') :
    statsd_handle_gauge name s = some (.gaugeSet name (.fin q)) := by
  unfold statsd_handle_gauge
  rw [hp]
  exact if_neg (fun hc => hc.elim h1 h2)

theorem statsd_apply_cell_type (a : StatsdAction) (m : StatsdMetric) :
    (statsd_apply_cell a m).type = m.type := by
  cases a with
  | counterAdd n v => cases v <;> rfl
  | timerAdd n v => cases v <;> rfl
  | gaugeSet n v => cases v <;> rfl
  | gaugeAdd n v => cases v <;> rfl
  | setInsert n k =>
      unfold statsd_apply_cell
      split <;> rfl

theorem statsd_gauge_run_type (name : List Char) (ss : List (List Char)) :
    ∀ m : StatsdMetric, (statsd_gauge_run name m ss).type = m.type := by
  induction ss with
  | nil => intro m; rfl
  | cons s ss ih =>
      intro m
      show (statsd_gauge_run name _ ss).type = m.type
      rw [ih]
      cases hh : statsd_handle_gauge name s with
      | none => rfl
      | some a => exact statsd_apply_cell_type a m

theorem statsd_gauge_run_append (name : List Char) (xs ys : List (List Char)) :
    ∀ m : StatsdMetric, statsd_gauge_run name m (xs ++ ys) =
      statsd_gauge_run name (statsd_gauge_run name m xs) ys := by
  induction xs with
  | nil => intro m; rfl
  | cons x xs ih => intro m; exact ih _

/-- C7: a gauge update whose value string begins with `+` or `-` adds the
parsed value to the cell's current value, any other value string overwrites
it; consequently, after any update sequence ending with an absolute update
of value `x`, the gauge flushed next emits exactly `x`. -/
theorem statsd_gauge_semantics (conf : StatsdConf) (t : ℕ)
    (nm name : List Char) (m : StatsdMetric) (pre : List (List Char))
    (s : List Char) (q : ℚ) (hm : m.type = .STATSD_GAUGE)
    (hp : statsd_parse_value s = some (.fin q)) :
    ((s.head? = some '+' ∨ s.head? = some '-') →
      statsd_handle_gauge name s = some (.gaugeAdd name (.fin q)) ∧
      ∀ mm : StatsdMetric, statsd_apply_cell (.gaugeAdd name (.fin q)) mm =
        { mm with value := mm.value + q,
                  updates_num := mm.updates_num + 1 }) ∧
    ((s.head? ≠ some '+' ∧ s.head? ≠ some '-') →
      statsd_handle_gauge name s = some (.gaugeSet name (.fin q)) ∧
      ∀ mm : StatsdMetric, statsd_apply_cell (.gaugeSet name (.fin q)) mm =
        { mm with value := q, updates_num := mm.updates_num + 1 }) ∧
    ((s.head? ≠ some '+' ∧ s.head? ≠ some '-') →
      (statsd_gauge_run name m (pre ++ [s])).value = q ∧
      (statsd_metric_submit conf t nm
          (statsd_gauge_run name m (pre ++ [s]))).1 =
        [⟨"gauge", nm, .g q, none⟩]) := by
  refine ⟨fun hh => ⟨handle_gauge_delta name s q hp hh, fun mm => rfl⟩,
    fun hh => ⟨handle_gauge_abs name s q hp hh.1 hh.2, fun mm => rfl⟩, ?_⟩
  rintro ⟨h1, h2⟩
  have habs := handle_gauge_abs name s q hp h1 h2
  have hstep1 : statsd_gauge_run name (statsd_gauge_run name m pre) [s] =
      statsd_apply_cell (.gaugeSet name (.fin q))
        (statsd_gauge_run name m pre) := by
    simp only [statsd_gauge_run, habs]
  have htype2 : (statsd_apply_cell (.gaugeSet name (.fin q))
      (statsd_gauge_run name m pre)).type = .STATSD_GAUGE := by
    rw [statsd_apply_cell_type, statsd_gauge_run_type]
    exact hm
  constructor
  · rw [statsd_gauge_run_append name pre [s] m, hstep1]
    rfl
  · rw [statsd_gauge_run_append name pre [s] m, hstep1,
      submit_gauge conf t nm _ htype2]
    rfl

/-- Witness for C7 at a concrete cell and updates "10", "+5", "0"
(scenario S3 of the spec): the flushed gauge is exactly 0. -/
theorem statsd_gauge_semantics_witness :
    (statsd_gauge_run ['g'] ⟨.STATSD_GAUGE, 0, 0, [], [], 0⟩
        [['1', '0'], ['+', '5'], ['0']]).value = 0 ∧
    (statsd_metric_submit statsd_conf_default 0 ['g']
        (statsd_gauge_run ['g'] ⟨.STATSD_GAUGE, 0, 0, [], [], 0⟩
          [['1', '0'], ['+', '5'], ['0']])).1 =
      [⟨"gauge", ['g'], .g 0, none⟩] :=
  (statsd_gauge_semantics statsd_conf_default 0 ['g'] ['g']
    ⟨.STATSD_GAUGE, 0, 0, [], [], 0⟩ [['1', '0'], ['+', '5']] ['0'] 0 rfl
    (by simp [statsd_parse_value, strtodModel, strtodSignificand,
      strtodExponent, toLowerList, digitsToNat, digitVal, List.takeWhile,
      List.dropWhile])).2.2 ⟨by simp, by simp⟩

/-! ## C10 — gauge persistence across flushes -/

theorem statsd_read_single_gauge (conf : StatsdConf) (t : ℕ) (k : List Char)
    (m : StatsdMetric) (hm : m.type = .STATSD_GAUGE)
    (hd : conf.delete_gauges = false) :
    statsd_read conf t [(k, m)] =
      ([⟨"gauge", k.drop 2, .g m.value, none⟩],
        [(k, { m with updates_num := 0 })]) := by
  have hflag : statsd_delete_flag conf .STATSD_GAUGE = false := hd
  simp [statsd_read, statsd_read_step, hflag,
    submit_gauge conf t (k.drop 2) m hm, hm]

theorem statsd_metric_updates_eta (m : StatsdMetric) (hu : m.updates_num = 0) :
    ({ m with updates_num := 0 } : StatsdMetric) = m := by
  cases m
  simp_all

/-- C10: flushing a gauge cell leaves its `value` unchanged (only
`updates_num` is reset), so with `DeleteGauges` disabled and no further
updates, every subsequent flush re-emits the same gauge value
indefinitely. -/
theorem statsd_gauge_persistence (conf : StatsdConf) (t : ℕ) (k : List Char)
    (m : StatsdMetric) (hm : m.type = .STATSD_GAUGE)
    (hd : conf.delete_gauges = false) :
    (statsd_read conf t [(k, m)]).2 = [(k, { m with updates_num := 0 })] ∧
    (statsd_read conf t [(k, m)]).1 =
      [⟨"gauge", k.drop 2, .g m.value, none⟩] ∧
    (∀ n, statsd_read_iter conf t n [(k, { m with updates_num := 0 })] =
      (List.replicate n [⟨"gauge", k.drop 2, .g m.value, none⟩],
        [(k, { m with updates_num := 0 })])) := by
  refine ⟨by rw [statsd_read_single_gauge conf t k m hm hd],
    by rw [statsd_read_single_gauge conf t k m hm hd], ?_⟩
  intro n
  induction n with
  | zero => rfl
  | succ n ih =>
      have hread := statsd_read_single_gauge conf t k
        { m with updates_num := 0 } hm hd
      rw [statsd_metric_updates_eta { m with updates_num := 0 } rfl] at hread
      show ((statsd_read conf t [(k, { m with updates_num := 0 })]).1 ::
          (statsd_read_iter conf t n
            (statsd_read conf t [(k, { m with updates_num := 0 })]).2).1,
        (statsd_read_iter conf t n
          (statsd_read conf t [(k, { m with updates_num := 0 })]).2).2) = _
      rw [hread]
      show (_ :: (statsd_read_iter conf t n _).1,
        (statsd_read_iter conf t n _).2) = _
      rw [ih]
      rfl

/-- Witness for C10 at a concrete gauge cell of value 13 over three
flushes. -/
theorem statsd_gauge_persistence_witness :
    (statsd_read statsd_conf_default 0 [(['g', ':'],
        ⟨.STATSD_GAUGE, 13, 0, [], [], 5⟩)]).2 =
      [(['g', ':'], ⟨.STATSD_GAUGE, 13, 0, [], [], 0⟩)] ∧
    (statsd_read statsd_conf_default 0 [(['g', ':'],
        ⟨.STATSD_GAUGE, 13, 0, [], [], 5⟩)]).1 =
      [⟨"gauge", [], .g 13, none⟩] ∧
    (∀ n, statsd_read_iter statsd_conf_default 0 n
        [(['g', ':'], ⟨.STATSD_GAUGE, 13, 0, [], [], 0⟩)] =
      (List.replicate n [⟨"gauge", [], .g 13, none⟩],
        [(['g', ':'], ⟨.STATSD_GAUGE, 13, 0, [], [], 0⟩)])) :=
 statsd_gauge_persistence statsd_conf_default 0 ['g', ':']
    ⟨.STATSD_GAUGE, 13, 0, [], [], 5⟩ rfl rfl

/-! ## C5 — idle deletion at flush -/

theorem statsd_read_step_eq (conf : StatsdConf) (t : ℕ)
    (acc : List Emission × List (List Char × StatsdMetric) × List (List Char))
    (kv : List Char × StatsdMetric) :
    statsd_read_step conf t acc kv =
      (acc.1 ++ statsd_cell_emissions conf t kv,
       acc.2.1 ++ [statsd_cell_after conf t kv],
       acc.2.2 ++ if statsd_cell_idle_delete conf kv then [kv.1] else []) := by
  by_cases h : kv.2.updates_num = 0 ∧ statsd_delete_flag conf kv.2.type = true
  · simp only [statsd_read_step, statsd_cell_emissions, statsd_cell_after,
      statsd_cell_idle_delete, if_pos h]
    simp
  · simp only [statsd_read_step, statsd_cell_emissions, statsd_cell_after,
      statsd_cell_idle_delete, if_neg h]
    simp

theorem statsd_read_foldl (conf : StatsdConf) (t : ℕ)
    (tree : List (List Char × StatsdMetric)) :
    ∀ acc : List Emission × List (List Char × StatsdMetric) × List (List Char),
      tree.foldl (statsd_read_step conf t) acc =
        (acc.1 ++ (tree.map (statsd_cell_emissions conf t)).flatten,
         acc.2.1 ++ tree.map (statsd_cell_after conf t),
         acc.2.2 ++ (tree.filter
           (fun kv => decide (statsd_cell_idle_delete conf kv))).map
             Prod.fst) := by
  induction tree with
  | nil => intro acc; simp
  | cons kv tree ih =>
      intro acc
      show tree.foldl (statsd_read_step conf t)
        (statsd_read_step conf t acc kv) = _
      rw [ih, statsd_read_step_eq]
      by_cases h : statsd_cell_idle_delete conf kv
      · simp [h, List.filter_cons]
      · simp [h, List.filter_cons]

theorem statsd_read_eq (conf : StatsdConf) (t : ℕ)
    (tree : List (List Char × StatsdMetric)) :
    statsd_read conf t tree =
      ((tree.map (statsd_cell_emissions conf t)).flatten,
       (tree.map (statsd_cell_after conf t)).filter
         (fun kv => decide (kv.1 ∉ (tree.filter
           (fun kv => decide (statsd_cell_idle_delete conf kv))).map
             Prod.fst))) := by
  unfold statsd_read
  rw [statsd_read_foldl conf t tree ([], [], [])]
  simp only [List.nil_append]

theorem statsd_cell_after_fst (conf : StatsdConf) (t : ℕ)
    (kv : List Char × StatsdMetric) :
    (statsd_cell_after conf t kv).1 = kv.1 := by
  unfold statsd_cell_after
  split <;> rfl

theorem key_nodup_eq {α β : Type} [DecidableEq α]
    {tree : List (α × β)} (h : (tree.map Prod.fst).Nodup) {k : α} {a b : β}
    (ha : (k, a) ∈ tree) (hb : (k, b) ∈ tree) : a = b := by
  induction tree with
  | nil => cases ha
  | cons kv rest ih =>
      simp only [List.map_cons, List.nodup_cons] at h
      rcases List.mem_cons.mp ha with ha1 | ha2 <;>
        rcases List.mem_cons.mp hb with hb1 | hb2
      · rw [← ha1] at hb1
        exact (Prod.mk.injEq _ _ _ _ ▸ hb1).2.symm
      · exfalso
        apply h.1
        rw [← ha1]
        simpa using List.mem_map_of_mem Prod.fst hb2
      · exfalso
        apply h.1
        rw [← hb1]
        simpa using List.mem_map_of_mem Prod.fst ha2
      · exact ih h.2 ha2 hb2

/-- C5: at a flush, a cell with `updates_num = 0` whose kind's delete-on-idle
flag is set is dropped from the table (its key is absent afterwards) and
emits nothing; every other cell is submitted and retained with its
`updates_num` reset; the emissions are the concatenation of the per-cell
emissions in iteration order, and the result table is the iterated table
with the collected deletions applied only after the whole iteration
(`statsd_read_eq`). -/
theorem statsd_idle_deletion (conf : StatsdConf) (t : ℕ)
    (tree : List (List Char × StatsdMetric))
    (hnodup : (tree.map Prod.fst).Nodup) :
    (∀ (k : List Char) (mm : StatsdMetric), (k, mm) ∈ tree →
      mm.updates_num = 0 → statsd_delete_flag conf mm.type = true →
      ∀ kv ∈ (statsd_read conf t tree).2, kv.1 ≠ k) ∧
    (∀ (k : List Char) (mm : StatsdMetric), (k, mm) ∈ tree →
      ¬ (mm.updates_num = 0 ∧ statsd_delete_flag conf mm.type = true) →
      statsd_cell_after conf t (k, mm) ∈ (statsd_read conf t tree).2 ∧
      (statsd_cell_after conf t (k, mm)).1 = k ∧
      (statsd_cell_after conf t (k, mm)).2.updates_num = 0 ∧
      statsd_cell_emissions conf t (k, mm) =
        (statsd_metric_submit conf t (k.drop 2) mm).1) ∧
    ((statsd_read conf t tree).1 =
      (tree.map (statsd_cell_emissions conf t)).flatten ∧
     ∀ (k : List Char) (mm : StatsdMetric),
       mm.updates_num = 0 → statsd_delete_flag conf mm.type = true →
       statsd_cell_emissions conf t (k, mm) = []) := by
  refine ⟨?_, ?_, ?_, ?_⟩
  · intro k mm hmem hu hflag kv hkv
    rw [statsd_read_eq] at hkv
    have h2 := (List.mem_filter.mp hkv).2
    intro heq
    rw [decide_eq_true_iff] at h2
    apply h2
    rw [heq]
    refine List.mem_map_of_mem Prod.fst (List.mem_filter.mpr ⟨hmem, ?_⟩)
    rw [decide_eq_true_iff]
    exact ⟨hu, hflag⟩
  · intro k mm hmem hno
    have hni : ¬ statsd_cell_idle_delete conf (k, mm) := hno
    refine ⟨?_, statsd_cell_after_fst conf t (k, mm), ?_, ?_⟩
    · rw [statsd_read_eq]
      refine List.mem_filter.mpr ⟨List.mem_map_of_mem _ hmem, ?_⟩
      rw [decide_eq_true_iff, statsd_cell_after_fst]
      intro hk
      obtain ⟨kv', hkv', hfst⟩ := List.mem_map.mp hk
      obtain ⟨hkv'mem, hkv'idle⟩ := List.mem_filter.mp hkv'
      rw [decide_eq_true_iff] at hkv'idle
      obtain ⟨k1, m1⟩ := kv'
      have hk1 : k1 = k := by simpa using hfst
      subst hk1
      have hm1 := key_nodup_eq hnodup hmem hkv'mem
      rw [← hm1] at hkv'idle
      exact hni hkv'idle
    · simp only [statsd_cell_after, if_neg hni]
      split <;> rfl
    · unfold statsd_cell_emissions
      rw [if_neg hni]
  · rw [statsd_read_eq]
  · intro k mm hu hflag
    unfold statsd_cell_emissions
    rw [if_pos ⟨hu, hflag⟩]

/-- Witness for C5 on a two-cell table: an idle counter (with
`DeleteCounters` set) is dropped and silent, a gauge cell is retained and
reset. -/
theorem statsd_idle_deletion_witness :
    (∀ kv ∈ (statsd_read { statsd_conf_default with delete_counters := true }
        0 [(['c', ':'], ⟨.STATSD_COUNTER, 0, 4, [], [], 0⟩),
           (['g', ':'], ⟨.STATSD_GAUGE, 13, 0, [], [], 2⟩)]).2,
      kv.1 ≠ ['c', ':']) ∧
    statsd_cell_after { statsd_conf_default with delete_counters := true } 0
        (['g', ':'], ⟨.STATSD_GAUGE, 13, 0, [], [], 2⟩) ∈
      (statsd_read { statsd_conf_default with delete_counters := true }
        0 [(['c', ':'], ⟨.STATSD_COUNTER, 0, 4, [], [], 0⟩),
           (['g', ':'], ⟨.STATSD_GAUGE, 13, 0, [], [], 2⟩)]).2 :=
  ⟨(statsd_idle_deletion { statsd_conf_default with delete_counters := true }
      0 [(['c', ':'], ⟨.STATSD_COUNTER, 0, 4, [], [], 0⟩),
         (['g', ':'], ⟨.STATSD_GAUGE, 13, 0, [], [], 2⟩)]
      (by decide)).1 ['c', ':'] ⟨.STATSD_COUNTER, 0, 4, [], [], 0⟩
      (by simp) rfl rfl,
    ((statsd_idle_deletion { statsd_conf_default with delete_counters := true }
      0 [(['c', ':'], ⟨.STATSD_COUNTER, 0, 4, [], [], 0⟩),
         (['g', ':'], ⟨.STATSD_GAUGE, 13, 0, [], [], 2⟩)]
      (by decide)).2.1 ['g', ':'] ⟨.STATSD_GAUGE, 13, 0, [], [], 2⟩
      (by simp) (by simp [statsd_delete_flag])).1⟩

/-! ## C6 — timer flush -/

theorem mem_ite_nil {α : Type} {c : Prop} [Decidable c] {l : List α} {a : α} :
    a ∈ (if c then l else []) ↔ c ∧ a ∈ l := by
  by_cases h : c
  · simp [h]
  · simp [h]

theorem tag_ne_of (nm a b : List Char) (h : a ≠ b) : nm ++ a ≠ nm ++ b :=
  fun he => h (List.append_cancel_left he)

theorem percentileTag_getElem1 (p : ℚ) : (percentileTag p)[1]? = some 'p' := by
  unfold percentileTag
  rw [List.getElem?_append_left (by decide)]
  decide

theorem pct_ne_tag (nm : List Char) (p : ℚ) (tag : List Char)
    (h : tag[1]? ≠ some 'p') : nm ++ percentileTag p ≠ nm ++ tag :=
  tag_ne_of nm _ _ (fun he => h (by rw [← he, percentileTag_getElem1]))

/-- Every emission of a timer submit is one of the six shapes, in order:
average, lower, upper, sum, a percentile, count. -/
theorem mem_submit_timer (conf : StatsdConf) (t : ℕ) (nm : List Char)
    (m : StatsdMetric) (hm : m.type = .STATSD_TIMER) (e : Emission)
    (he : e ∈ (statsd_metric_submit conf t nm m).1) :
    e = ⟨"latency", nm ++ "-average".toList,
        (if 0 < m.updates_num then
          .g (latency_counter_get_average m.latency) else .gnan), some t⟩ ∨
    (conf.timer_lower = true ∧ e = ⟨"latency", nm ++ "-lower".toList,
        (if 0 < m.updates_num then
          .g (latency_counter_get_min m.latency) else .gnan), some t⟩) ∨
    (conf.timer_upper = true ∧ e = ⟨"latency", nm ++ "-upper".toList,
        (if 0 < m.updates_num then
          .g (latency_counter_get_max m.latency) else .gnan), some t⟩) ∨
    (conf.timer_sum = true ∧ e = ⟨"latency", nm ++ "-sum".toList,
        (if 0 < m.updates_num then
          .g (latency_counter_get_sum m.latency) else .gnan), some t⟩) ∨
    (∃ p ∈ conf.timer_percentile, e = ⟨"latency", nm ++ percentileTag p,
        (if 0 < m.updates_num then
          .g (latency_counter_get_percentile p m.latency) else .gnan),
        some t⟩) ∨
    (conf.timer_count = true ∧ e = ⟨"gauge", nm ++ "-count".toList,
        .g (latency_counter_get_num m.latency), some t⟩) := by
  rw [submit_timer conf t nm m hm] at he
  simp only [List.mem_append, mem_ite_nil, List.mem_singleton,
    List.mem_map] at he
  rcases he with ((((he | he) | he) | he) | he) | he
  · exact Or.inl he
  · exact Or.inr (Or.inl he)
  · exact Or.inr (Or.inr (Or.inl he))
  · exact Or.inr (Or.inr (Or.inr (Or.inl he)))
  · obtain ⟨p, hp, rfl⟩ := he
    exact Or.inr (Or.inr (Or.inr (Or.inr (Or.inl ⟨p, hp, rfl⟩))))
  · exact Or.inr (Or.inr (Or.inr (Or.inr (Or.inr he))))

/-- C6: all measurements emitted for a timer cell in one flush carry the
same timestamp; `-average` is always emitted; `-lower`, `-upper`, `-sum` and
`-count` are emitted exactly when configured and `-percentile-<P>` for each
configured percentile; when `updates_num = 0` every "latency"-typed
statistic is NaN while `-count` is numeric and equal to 0; the histogram is
reset after emission.  The hypothesis `updates_num = 0 → latency = []` is
the cell invariant maintained by `statsd_handle_timer` (which counts every
recorded sample) and by the flush itself (which resets the histogram). -/
theorem statsd_timer_flush (conf : StatsdConf) (t : ℕ) (nm : List Char)
    (m : StatsdMetric) (hm : m.type = .STATSD_TIMER)
    (hinv : m.updates_num = 0 → m.latency = []) :
    (∀ e ∈ (statsd_metric_submit conf t nm m).1, e.time = some t) ∧
    (Emission.mk "latency" (nm ++ "-average".toList)
        (if 0 < m.updates_num then
          .g (latency_counter_get_average m.latency) else .gnan) (some t) ∈
      (statsd_metric_submit conf t nm m).1) ∧
    ((∃ v, Emission.mk "latency" (nm ++ "-lower".toList) v (some t) ∈
        (statsd_metric_submit conf t nm m).1) ↔
      conf.timer_lower = true) ∧
    ((∃ v, Emission.mk "latency" (nm ++ "-upper".toList) v (some t) ∈
        (statsd_metric_submit conf t nm m).1) ↔
      conf.timer_upper = true) ∧
    ((∃ v, Emission.mk "latency" (nm ++ "-sum".toList) v (some t) ∈
        (statsd_metric_submit conf t nm m).1) ↔
      conf.timer_sum = true) ∧
    (∀ p ∈ conf.timer_percentile,
      Emission.mk "latency" (nm ++ percentileTag p)
          (if 0 < m.updates_num then
            .g (latency_counter_get_percentile p m.latency) else .gnan)
          (some t) ∈ (statsd_metric_submit conf t nm m).1) ∧
    ((∃ v, Emission.mk "gauge" (nm ++ "-count".toList) v (some t) ∈
        (statsd_metric_submit conf t nm m).1) ↔
      conf.timer_count = true) ∧
    (m.updates_num = 0 →
      (∀ e ∈ (statsd_metric_submit conf t nm m).1,
        e.type = "latency" → e.value = .gnan) ∧
      (conf.timer_count = true →
        Emission.mk "gauge" (nm ++ "-count".toList) (.g 0) (some t) ∈
          (statsd_metric_submit conf t nm m).1)) ∧
    ((statsd_metric_submit conf t nm m).2.latency = [] ∧
      (statsd_metric_submit conf t nm m).2.updates_num =
        m.updates_num) := by
  have hal : nm ++ "-average".toList ≠ nm ++ "-lower".toList :=
    tag_ne_of nm _ _ (by decide)
  have hau : nm ++ "-average".toList ≠ nm ++ "-upper".toList :=
    tag_ne_of nm _ _ (by decide)
  have has : nm ++ "-average".toList ≠ nm ++ "-sum".toList :=
    tag_ne_of nm _ _ (by decide)
  have hlu : nm ++ "-lower".toList ≠ nm ++ "-upper".toList :=
    tag_ne_of nm _ _ (by decide)
  have hls : nm ++ "-lower".toList ≠ nm ++ "-sum".toList :=
    tag_ne_of nm _ _ (by decide)
  have hus : nm ++ "-upper".toList ≠ nm ++ "-sum".toList :=
    tag_ne_of nm _ _ (by decide)
  have hpl : ∀ p : ℚ, nm ++ percentileTag p ≠ nm ++ "-lower".toList :=
    fun p => pct_ne_tag nm p _ (by decide)
  have hpu : ∀ p : ℚ, nm ++ percentileTag p ≠ nm ++ "-upper".toList :=
    fun p => pct_ne_tag nm p _ (by decide)
  have hps : ∀ p : ℚ, nm ++ percentileTag p ≠ nm ++ "-sum".toList :=
    fun p => pct_ne_tag nm p _ (by decide)
  have hcl : nm ++ "-count".toList ≠ nm ++ "-lower".toList :=
    tag_ne_of nm _ _ (by decide)
  have hcu : nm ++ "-count".toList ≠ nm ++ "-upper".toList :=
    tag_ne_of nm _ _ (by decide)
  have hcs : nm ++ "-count".toList ≠ nm ++ "-sum".toList :=
    tag_ne_of nm _ _ (by decide)
  have hgl : ("gauge" : String) ≠ "latency" := by decide
  refine ⟨?_, ?_, ?_, ?_, ?_, ?_, ?_, ?_, ?_⟩
  · intro e he
    rcases mem_submit_timer conf t nm m hm e he with
      h | ⟨_, h⟩ | ⟨_, h⟩ | ⟨_, h⟩ | ⟨p, _, h⟩ | ⟨_, h⟩ <;> rw [h]
  · rw [submit_timer conf t nm m hm]
    simp
  · constructor
    · rintro ⟨v, hv⟩
      rcases mem_submit_timer conf t nm m hm _ hv with
        h | ⟨hb, h⟩ | ⟨hb, h⟩ | ⟨hb, h⟩ | ⟨p, hp, h⟩ | ⟨hb, h⟩ <;>
        simp only [Emission.mk.injEq] at h
      · exact absurd h.2.1.symm hal
      · exact hb
      · exact absurd h.2.1.symm hlu.symm
      · exact absurd h.2.1.symm hls.symm
      · exact absurd h.2.1.symm (hpl p)
      · exact absurd h.1.symm hgl
    · intro hb
      refine ⟨(if 0 < m.updates_num then
          EmValue.g (latency_counter_get_min m.latency) else .gnan), ?_⟩
      rw [submit_timer conf t nm m hm]
      simp [hb]
  · constructor
    · rintro ⟨v, hv⟩
      rcases mem_submit_timer conf t nm m hm _ hv with
        h | ⟨hb, h⟩ | ⟨hb, h⟩ | ⟨hb, h⟩ | ⟨p, hp, h⟩ | ⟨hb, h⟩ <;>
        simp only [Emission.mk.injEq] at h
      · exact absurd h.2.1.symm hau
      · exact absurd h.2.1.symm hlu
      · exact hb
      · exact absurd h.2.1.symm hus.symm
      · exact absurd h.2.1.symm (hpu p)
      · exact absurd h.1.symm hgl
    · intro hb
      refine ⟨(if 0 < m.updates_num then
          EmValue.g (latency_counter_get_max m.latency) else .gnan), ?_⟩
      rw [submit_timer conf t nm m hm]
      simp [hb]
  · constructor
    · rintro ⟨v, hv⟩
      rcases mem_submit_timer conf t nm m hm _ hv with
        h | ⟨hb, h⟩ | ⟨hb, h⟩ | ⟨hb, h⟩ | ⟨p, hp, h⟩ | ⟨hb, h⟩ <;>
        simp only [Emission.mk.injEq] at h
      · exact absurd h.2.1.symm has
      · exact absurd h.2.1.symm hls
      · exact absurd h.2.1.symm hus
      · exact hb
      · exact absurd h.2.1.symm (hps p)
      · exact absurd h.1.symm hgl
    · intro hb
      refine ⟨(if 0 < m.updates_num then
          EmValue.g (latency_counter_get_sum m.latency) else .gnan), ?_⟩
      rw [submit_timer conf t nm m hm]
      simp [hb]
  · intro p hp
    rw [submit_timer conf t nm m hm]
    simp only [List.mem_append, mem_ite_nil, List.mem_singleton, List.mem_map]
    exact Or.inl (Or.inr ⟨p, hp, rfl⟩)
  · constructor
    · rintro ⟨v, hv⟩
      rcases mem_submit_timer conf t nm m hm _ hv with
        h | ⟨hb, h⟩ | ⟨hb, h⟩ | ⟨hb, h⟩ | ⟨p, hp, h⟩ | ⟨hb, h⟩ <;>
        simp only [Emission.mk.injEq] at h
      · exact absurd h.1 hgl
      · exact absurd h.1 hgl
      · exact absurd h.1 hgl
      · exact absurd h.1 hgl
      · exact absurd h.1 hgl
      · exact hb
    · intro hb
      refine ⟨EmValue.g (latency_counter_get_num m.latency), ?_⟩
      rw [submit_timer conf t nm m hm]
      simp [hb]
  · intro hu
    have hlat := hinv hu
    constructor
    · intro e he hty
      rcases mem_submit_timer conf t nm m hm e he with
        h | ⟨_, h⟩ | ⟨_, h⟩ | ⟨_, h⟩ | ⟨p, _, h⟩ | ⟨_, h⟩ <;> rw [h] <;>
        simp [hu]
      rw [h] at hty
      exact absurd hty hgl
    · intro hb
      rw [submit_timer conf t nm m hm]
      have : latency_counter_get_num m.latency = 0 := by
        rw [hlat]
        rfl
      simp [hb, this]
  · rw [submit_timer conf t nm m hm]
    exact ⟨rfl, rfl⟩

/-- Witness for C6 at a concrete timer cell with three samples and
`TimerLower`, `TimerCount`, `TimerPercentile 90` configured. -/
theorem statsd_timer_flush_witness :
    (∀ e ∈ (statsd_metric_submit
        { statsd_conf_default with
            timer_lower := true
            timer_count := true
            timer_percentile := [90] } 7 ['r', 'q']
        ⟨.STATSD_TIMER, 0, 0, [100, 200, 300], [], 3⟩).1,
      e.time = some 7) ∧
    ((statsd_metric_submit
        { statsd_conf_default with
            timer_lower := true
            timer_count := true
            timer_percentile := [90] } 7 ['r', 'q']
        ⟨.STATSD_TIMER, 0, 0, [100, 200, 300], [], 3⟩).2.latency = []) :=
  ⟨(statsd_timer_flush
      { statsd_conf_default with
          timer_lower := true
          timer_count := true
          timer_percentile := [90] } 7 ['r', 'q']
      ⟨.STATSD_TIMER, 0, 0, [100, 200, 300], [], 3⟩ rfl
      (fun h => absurd h (by decide))).1,
    (statsd_timer_flush
      { statsd_conf_default with
          timer_lower := true
          timer_count := true
          timer_percentile := [90] } 7 ['r', 'q']
      ⟨.STATSD_TIMER, 0, 0, [100, 200, 300], [], 3⟩ rfl
      (fun h => absurd h (by decide))).2.2.2.2.2.2.2.2.1⟩

/-! ## C4 — line splitting and sample-rate validity -/

theorem strchrSplit_sound (c : Char) :
    ∀ l a b : List Char, strchrSplit c l = some (a, b) →
      l = a ++ c :: b ∧ c ∉ a := by
  intro l
  induction l with
  | nil => intro a b h; cases h
  | cons x xs ih =>
      intro a b h
      unfold strchrSplit at h
      by_cases hx : x = c
      · rw [if_pos hx] at h
        injection h with h'
        obtain ⟨h1, h2⟩ := Prod.mk.injEq .. ▸ h'
        subst hx
        rw [← h1, ← h2]
        exact ⟨rfl, by simp⟩
      · rw [if_neg hx] at h
        cases hs : strchrSplit c xs with
        | none => rw [hs] at h; cases h
        | some p =>
            rw [hs] at h
            injection h with h'
            obtain ⟨h1, h2⟩ := Prod.mk.injEq .. ▸ h'
            obtain ⟨ha, hb⟩ := ih p.1 p.2 (by rw [hs])
            rw [← h1, ← h2]
            constructor
            · rw [ha]
              rfl
            · intro hc
              rcases List.mem_cons.mp hc with hc | hc
              · exact hx hc.symm
              · exact hb hc

theorem strchrSplit_complete (c : Char) (a b : List Char) (ha : c ∉ a) :
    strchrSplit c (a ++ c :: b) = some (a, b) := by
  induction a with
  | nil => simp [strchrSplit]
  | cons x xs ih =>
      have h1 : ¬ c = x := fun h => ha (by rw [h]; exact List.mem_cons_self x xs)
      have h2 : c ∉ xs := fun h => ha (List.mem_cons_of_mem x h)
      show strchrSplit c (x :: (xs ++ c :: b)) = _
      unfold strchrSplit
      rw [if_neg (fun he => h1 he.symm), ih h2]
      rfl

theorem strrchrSplit_sound (c : Char) (l a b : List Char)
    (h : strrchrSplit c l = some (a, b)) : l = a ++ c :: b ∧ c ∉ b := by
  unfold strrchrSplit at h
  cases hs : strchrSplit c l.reverse with
  | none => rw [hs] at h; cases h
  | some p =>
      rw [hs] at h
      injection h with h'
      obtain ⟨h1, h2⟩ := Prod.mk.injEq .. ▸ h'
      obtain ⟨hl, hc⟩ := strchrSplit_sound c l.reverse p.1 p.2 (by rw [hs])
      constructor
      · have : l.reverse.reverse = (p.1 ++ c :: p.2).reverse := by rw [hl]
        rw [List.reverse_reverse] at this
        rw [this, ← h1, ← h2]
        simp
      · rw [← h2]
        simpa using hc

theorem strrchrSplit_complete (c : Char) (a b : List Char) (hb : c ∉ b) :
    strrchrSplit c (a ++ c :: b) = some (a, b) := by
  unfold strrchrSplit
  have hrev : (a ++ c :: b).reverse = b.reverse ++ c :: a.reverse := by
    simp
  rw [hrev, strchrSplit_complete c b.reverse a.reverse (by simpa using hb)]
  simp

/-- Reduce `statsd_parse_line` on a line split as
`name ++ ":" ++ value ++ "|" ++ rest`. -/
theorem statsd_parse_line_eq (name value rest : List Char)
    (hn : ('|') ∉ name) (hv1 : (':') ∉ value) (hv2 : ('|') ∉ value) :
    statsd_parse_line (name ++ ':' :: value ++ '|' :: rest) =
      (let te : List Char × Option (List Char) :=
        match strchrSplit '|' rest with
        | none => (rest, none)
        | some (t, e) => (t, some e)
      if te.1 = ['c'] then statsd_handle_counter name value te.2
      else if te.1 = ['m', 's'] then statsd_handle_timer name value te.2
      else if te.2.isSome then none
      else if te.1 = ['g'] then statsd_handle_gauge name value
      else if te.1 = ['s'] then statsd_handle_set name value
      else none) := by
  have hassoc : name ++ ':' :: value ++ '|' :: rest =
      (name ++ ':' :: value) ++ '|' :: rest := by
    simp
  have hbar : ('|') ∉ name ++ ':' :: value := by
    intro hc
    rcases List.mem_append.mp hc with hc | hc
    · exact hn hc
    · rcases List.mem_cons.mp hc with hc | hc
      · cases hc
      · exact hv2 hc
  unfold statsd_parse_line
  rw [hassoc]
  simp only [strchrSplit_complete '|' (name ++ ':' :: value) rest hbar,
    strrchrSplit_complete ':' name value hv1]

/-- C4: for every line accepted by the parser, the kind separator is the
first `|` of the line and the name/value separator is the last `:` before
it (`:` may occur in the name, not in the value); a sample-rate suffix on a
`g` or `s` line fails the parse; a `c` or `ms` line with suffix `@rs` is
accepted only when `rs` parses as a finite double in (0, 1], and a rate
outside that range, infinite, or NaN fails the parse; an absolute gauge
line parses to an overwrite of the parsed value (name may contain `:`). -/
theorem statsd_parse_line_splitting :
    (∀ (l : List Char) (u : StatsdAction), statsd_parse_line l = some u →
      ∃ name value ktail, l = name ++ ':' :: value ++ '|' :: ktail ∧
        ('|') ∉ name ∧ ('|') ∉ value ∧ (':') ∉ value) ∧
    (∀ name value rest : List Char,
      ('|') ∉ name → (':') ∉ value → ('|') ∉ value →
      statsd_parse_line
          (name ++ ':' :: value ++ '|' :: 'g' :: '|' :: rest) = none ∧
      statsd_parse_line
          (name ++ ':' :: value ++ '|' :: 's' :: '|' :: rest) = none) ∧
    (∀ name value rs : List Char,
      ('|') ∉ name → (':') ∉ value → ('|') ∉ value →
      ((statsd_parse_line
          (name ++ ':' :: value ++ '|' :: 'c' :: '|' :: '@' :: rs)).isSome →
        ∃ r : ℚ, statsd_parse_value rs = some (.fin r) ∧ 0 < r ∧ r ≤ 1) ∧
      ((statsd_parse_line
          (name ++ ':' :: value ++ '|' :: 'm' :: 's' :: '|' :: '@' :: rs)).isSome →
        ∃ r : ℚ, statsd_parse_value rs = some (.fin r) ∧ 0 < r ∧ r ≤ 1)) ∧
    (∀ name value rs : List Char,
      ('|') ∉ name → (':') ∉ value → ('|') ∉ value →
      ((∃ r : ℚ, statsd_parse_value rs = some (.fin r) ∧ (r ≤ 0 ∨ 1 < r)) ∨
        statsd_parse_value rs = some .inf ∨
        statsd_parse_value rs = some .nan) →
      statsd_parse_line
          (name ++ ':' :: value ++ '|' :: 'c' :: '|' :: '@' :: rs) = none ∧
      statsd_parse_line
          (name ++ ':' :: value ++ '|' :: 'm' :: 's' :: '|' :: '@' :: rs) =
        none) ∧
    (∀ (name value : List Char) (q : ℚ),
      ('|') ∉ name → (':') ∉ value → ('|') ∉ value →
      statsd_parse_value value = some (.fin q) →
      value.head? ≠ some '+' → value.head? ≠ some '-' →
      statsd_parse_line (name ++ ':' :: value ++ ['|', 'g']) =
        some (.gaugeSet name (.fin q))) := by
  refine ⟨?_, ?_, ?_, ?_, ?_⟩
  · intro l u h
    unfold statsd_parse_line at h
    cases h1 : strchrSplit '|' l with
    | none =>
        simp only [h1] at h
        exact Option.noConfusion h
    | some nv =>
        obtain ⟨nva, nvb⟩ := nv
        simp only [h1] at h
        cases h2 : strrchrSplit ':' nva with
        | none =>
            simp only [h2] at h
            exact Option.noConfusion h
        | some p =>
            obtain ⟨pa, pb⟩ := p
            obtain ⟨hl, hbar⟩ := strchrSplit_sound '|' l nva nvb h1
            obtain ⟨hnv, hcol⟩ := strrchrSplit_sound ':' nva pa pb h2
            refine ⟨pa, pb, nvb, ?_, ?_, ?_, hcol⟩
            · simp [hl, hnv]
            · intro hc
              exact hbar (by rw [hnv]; exact List.mem_append_left _ hc)
            · intro hc
              exact hbar (by
                rw [hnv]
                exact List.mem_append_right _ (List.mem_cons_of_mem _ hc))
  · intro name value rest hn hv1 hv2
    constructor
    · rw [statsd_parse_line_eq name value ('g' :: '|' :: rest) hn hv1 hv2]
      rw [show strchrSplit '|' ('g' :: '|' :: rest) = some (['g'], rest) from
        strchrSplit_complete '|' ['g'] rest (by decide)]
      simp
    · rw [statsd_parse_line_eq name value ('s' :: '|' :: rest) hn hv1 hv2]
      rw [show strchrSplit '|' ('s' :: '|' :: rest) = some (['s'], rest) from
        strchrSplit_complete '|' ['s'] rest (by decide)]
      simp
  · intro name value rs hn hv1 hv2
    have hredc : statsd_parse_line
        (name ++ ':' :: value ++ '|' :: 'c' :: '|' :: '@' :: rs) =
        statsd_handle_counter name value (some ('@' :: rs)) := by
      rw [statsd_parse_line_eq name value ('c' :: '|' :: '@' :: rs) hn hv1 hv2]
      rw [show strchrSplit '|' ('c' :: '|' :: '@' :: rs) =
          some (['c'], '@' :: rs) from
        strchrSplit_complete '|' ['c'] ('@' :: rs) (by decide)]
      rfl
    have hredm : statsd_parse_line
        (name ++ ':' :: value ++ '|' :: 'm' :: 's' :: '|' :: '@' :: rs) =
        statsd_handle_timer name value (some ('@' :: rs)) := by
      rw [statsd_parse_line_eq name value ('m' :: 's' :: '|' :: '@' :: rs)
        hn hv1 hv2]
      rw [show strchrSplit '|' ('m' :: 's' :: '|' :: '@' :: rs) =
          some (['m', 's'], '@' :: rs) from
        strchrSplit_complete '|' ['m', 's'] ('@' :: rs) (by decide)]
      rfl
    constructor
    · rw [hredc]
      unfold statsd_handle_counter
      simp only [List.head?_cons, List.tail_cons, ne_eq, Option.some.injEq,
        not_true_eq_false, if_false]
      cases hp : statsd_parse_value rs with
      | none => simp
      | some fv =>
          cases fv with
          | fin r =>
              by_cases hr : 0 < r ∧ r ≤ 1
              · intro _
                exact ⟨r, rfl, hr⟩
              · simp [hr]
          | inf => simp
          | nan => simp
    · rw [hredm]
      unfold statsd_handle_timer
      simp only [List.head?_cons, List.tail_cons, ne_eq, Option.some.injEq,
        not_true_eq_false, if_false]
      cases hp : statsd_parse_value rs with
      | none => simp
      | some fv =>
          cases fv with
          | fin r =>
              by_cases hr : 0 < r ∧ r ≤ 1
              · intro _
                exact ⟨r, rfl, hr⟩
              · simp [hr]
          | inf => simp
          | nan => simp
  · intro name value rs hn hv1 hv2 hbad
    have hrange : ∀ r : ℚ, (r ≤ 0 ∨ 1 < r) → ¬ (0 < r ∧ r ≤ 1) := by
      intro r hr hcontra
      rcases hr with hr | hr
      · exact absurd hcontra.1 (not_lt.mpr hr)
      · exact absurd hcontra.2 (not_le.mpr hr)
    have hc : statsd_handle_counter name value (some ('@' :: rs)) = none := by
      unfold statsd_handle_counter
      simp only [List.head?_cons, List.tail_cons, ne_eq, Option.some.injEq,
        not_true_eq_false, if_false]
      rcases hbad with ⟨r, hp, hr⟩ | hp | hp
      · simp only [hp]
        rw [if_pos (hrange r hr)]
      · simp only [hp]
      · simp only [hp]
    have ht : statsd_handle_timer name value (some ('@' :: rs)) = none := by
      unfold statsd_handle_timer
      simp only [List.head?_cons, List.tail_cons, ne_eq, Option.some.injEq,
        not_true_eq_false, if_false]
      rcases hbad with ⟨r, hp, hr⟩ | hp | hp
      · simp only [hp]
        rw [if_pos (hrange r hr)]
      · simp only [hp]
      · simp only [hp]
    constructor
    · rw [statsd_parse_line_eq name value ('c' :: '|' :: '@' :: rs) hn hv1 hv2]
      rw [show strchrSplit '|' ('c' :: '|' :: '@' :: rs) =
          some (['c'], '@' :: rs) from
        strchrSplit_complete '|' ['c'] ('@' :: rs) (by decide)]
      simpa using hc
    · rw [statsd_parse_line_eq name value ('m' :: 's' :: '|' :: '@' :: rs)
        hn hv1 hv2]
      rw [show strchrSplit '|' ('m' :: 's' :: '|' :: '@' :: rs) =
          some (['m', 's'], '@' :: rs) from
        strchrSplit_complete '|' ['m', 's'] ('@' :: rs) (by decide)]
      simpa using ht
  · intro name value q hn hv1 hv2 hp hh1 hh2
    rw [show name ++ ':' :: value ++ ['|', 'g'] =
        name ++ ':' :: value ++ '|' :: ['g'] from rfl]
    rw [statsd_parse_line_eq name value ['g'] hn hv1 hv2]
    show statsd_handle_gauge name value = _
    exact handle_gauge_abs name value q hp hh1 hh2

/-- Witness for C4: the line `a:2|g|x` (sample-rate suffix on a gauge) is
rejected, and the accepted counter line `a:2|c|@0.5` certifies that its
sample rate parses to a finite rational in (0, 1]. -/
theorem statsd_parse_line_splitting_witness :
    statsd_parse_line
        (['a'] ++ ':' :: ['2'] ++ '|' :: 'g' :: '|' :: ['x']) = none ∧
    (∃ r : ℚ, statsd_parse_value ['0', '.', '5'] = some (.fin r) ∧
      0 < r ∧ r ≤ 1) :=
  ⟨(statsd_parse_line_splitting.2.1 ['a'] ['2'] ['x']
      (by decide) (by decide) (by decide)).1,
    (statsd_parse_line_splitting.2.2.1 ['a'] ['2'] ['0', '.', '5']
      (by decide) (by decide) (by decide)).1
      (by norm_num +decide [statsd_parse_line, strchrSplit, strrchrSplit,
        statsd_handle_counter, statsd_parse_value, strtodModel,
        strtodSignificand, strtodExponent, toLowerList, digitsToNat, digitVal,
        List.takeWhile, List.dropWhile, FloatV.divQ, Char.isDigit,
        show Char.toNat '5' = 53 from by decide,
        show Char.toNat '0' = 48 from by decide,
        show Char.toNat '2' = 50 from by decide])⟩

end Collectd
